import Mathlib

/-!
# Verification of the Nomad network allocation index

A shallow embedding of `nomad/structs/network.go` (the `NetworkIndex`
data structure and its operations), together with theorems settling the
specification claims about it.

Go machine integers are modelled as `Int` (port values, `to` fields,
bandwidth) or `Nat` (bitmap indices).  Go's `uint(x)` conversion of a
possibly-negative `int` is modelled by `goUint` (reduction mod 2^64).
Go maps are modelled as association lists (lookup by key; claims never
depend on map iteration order).  The process-wide bitmap pool hands out
bitmaps that are cleared before use, so a pooled bitmap is
indistinguishable from a fresh empty one; the pool is therefore invisible
in this model.  Go's global `rand` is modelled by an explicit stream of
draws (`Rng`) threaded through the functions that consume randomness;
`rand.Intn n` is modelled as `draw % n` (Go panics for `n ≤ 0`; theorems
about the stochastic selector assume `minDynamicPort < maxDynamicPort`,
which keeps the model inside the non-panicking region).
-/

namespace Nomad

/-- `MaxValidPort` from network.go. -/
def MaxValidPort : Nat := 65536

/-- `DefaultMinDynamicPort` from network.go. -/
def DefaultMinDynamicPort : Int := 20000

/-- `DefaultMaxDynamicPort` from network.go. -/
def DefaultMaxDynamicPort : Int := 32000

/-- `maxRandPortAttempts` from network.go. -/
def maxRandPortAttempts : Nat := 20

/-- Go's `uint(x)` conversion of an `int`: reduction modulo 2^64.
For `0 ≤ x < 2^64` this is `x.toNat`. -/
def goUint (x : Int) : Nat := (x % (2 : Int) ^ 64).toNat

/-- Modelled from the spec: `Bitmap` (bitmap.go is not part of the given
sources).  A fixed-capacity bit set over port numbers; modelled as the set
of indices whose bit is set.  `set` is `insert`, `check` is membership,
`copy` is the identity (the model is functional), a freshly allocated or
cleared bitmap is `∅`. -/
abbrev Bitmap := Finset Nat

/-- Modelled from the spec: `Bitmap.IndexesInRange value lo hi` returns, in
ascending order, every index in `[lo, hi]` (inclusive) within the bitmap's
capacity whose bit equals `value`.  The Index always uses capacity
`MaxValidPort`.  Returns `[]int` in Go, hence `List Int` here. -/
def indexesInRange (b : Bitmap) (value : Bool) (lo hi : Nat) : List Int :=
  ((List.range' lo (hi + 1 - lo)).filter
    (fun p => decide (p < MaxValidPort) && (decide (p ∈ b) == value))).map Int.ofNat

/-- A stream of random draws: `f` gives the `k`-th draw, `k` is the cursor.
`intn n` models Go's `rand.Intn n` as `f k % n` (Go panics when `n ≤ 0`;
the model then returns the raw draw, a region excluded by the theorems). -/
structure Rng where
  f : Nat → Nat
  k : Nat

/-- One draw in `[0, n)` (for `n > 0`), advancing the cursor. -/
def Rng.intn (r : Rng) (n : Nat) : Nat × Rng :=
  (r.f r.k % n, ⟨r.f, r.k + 1⟩)

/-- `Port` from structs.go: a port ask `{label, value, to, host_network}`.
`value` and `to` are Go `int`s (`to = -1` is the "match value" sentinel).
The Go field `To` is embedded as `toVal` (`to` is a Lean keyword). -/
structure Port where
  label : String
  value : Int
  toVal : Int
  hostNetwork : String
deriving DecidableEq

/-- `AllocatedPortMapping` from structs.go: `{label, value, to, host_ip}`.
The Go field `To` is embedded as `toVal` (`to` is a Lean keyword). -/
structure AllocatedPortMapping where
  label : String
  value : Int
  toVal : Int
  hostIP : String
deriving DecidableEq

/-- `AllocatedPorts` from structs.go: an ordered list of mappings. -/
abbrev AllocatedPorts := List AllocatedPortMapping

/-- `NetworkResource` from structs.go, restricted to the fields network.go
reads.  `DNS` and `Mode` are carried opaquely as strings. -/
structure NetworkResource where
  mode : String := ""
  device : String := ""
  cidr : String := ""
  ip : String := ""
  dns : String := ""
  mbits : Int := 0
  reservedPorts : List Port := []
  dynamicPorts : List Port := []
deriving DecidableEq

/-- `NodeNetworkAddress` from structs.go: `{alias, address, reserved_ports}`.
The Go field `Alias` is embedded as `aliasName` (`alias` is a Lean keyword). -/
structure NodeNetworkAddress where
  aliasName : String
  address : String
  reservedPorts : String := ""
deriving DecidableEq

/-- `NodeNetworkResource` from structs.go, restricted to the fields
network.go reads. -/
structure NodeNetworkResource where
  mode : String := ""
  device : String := ""
  addresses : List NodeNetworkAddress := []
deriving DecidableEq

/-- `NetworkIndex` from network.go.  Go maps become association lists. -/
structure NetworkIndex where
  taskNetworks : List NetworkResource := []
  groupNetworks : List NodeNetworkResource := []
  hostNetworks : List (String × List NodeNetworkAddress) := []
  usedPorts : List (String × Bitmap) := []
  availBandwidth : List (String × Int) := []
  usedBandwidth : List (String × Int) := []
  minDynamicPort : Int := DefaultMinDynamicPort
  maxDynamicPort : Int := DefaultMaxDynamicPort
deriving DecidableEq

/-- Association-list lookup (Go map read; `none` = key absent). -/
def alLookup {α : Type} : List (String × α) → String → Option α
  | [], _ => none
  | (k, v) :: rest, key => if k = key then some v else alLookup rest key

/-- Association-list write (Go map assignment: replace or insert). -/
def alSet {α : Type} : List (String × α) → String → α → List (String × α)
  | [], key, v => [(key, v)]
  | (k, w) :: rest, key, v =>
    if k = key then (key, v) :: rest else (k, w) :: alSet rest key v

/-- Go `map[string]int` read with zero default. -/
def bwGet (m : List (String × Int)) (key : String) : Int :=
  (alLookup m key).getD 0

/-- Go `m[key] += v` on a `map[string]int`. -/
def bwAdd (m : List (String × Int)) (key : String) (v : Int) :
    List (String × Int) :=
  alSet m key (bwGet m key + v)

/-- `NetworkIndex.getUsedPortsFor` from network.go: returns the bitmap for
`ip`, inserting a fresh (pool-cleared, hence empty) bitmap into `UsedPorts`
when the entry is absent.  Returns the bitmap together with the updated
index, since the insertion mutates the index. -/
def getUsedPortsFor (idx : NetworkIndex) (ip : String) :
    Bitmap × NetworkIndex :=
  match alLookup idx.usedPorts ip with
  | some b => (b, idx)
  | none => (∅, { idx with usedPorts := alSet idx.usedPorts ip ∅ })

/-- Membership in `used_ports[ip]`, an absent entry denoting the empty set. -/
def checkUsed (idx : NetworkIndex) (ip : String) (p : Nat) : Bool :=
  match alLookup idx.usedPorts ip with
  | some b => decide (p ∈ b)
  | none => false

/-- `used != nil && used.Check(uint(v))` where `used` may be Go-`nil`. -/
def checkOpt (used : Option Bitmap) (v : Int) : Bool :=
  match used with
  | some b => decide (goUint v ∈ b)
  | none => false

/-- `isPortReserved` from network.go: scans an integer slice for a value. -/
def isPortReserved (haystack : List Int) (needle : Int) : Bool :=
  haystack.contains needle

/-! ## Dynamic port selectors -/

/-- The inner `PICK` loop of `getDynamicPortsStochastic`: up to `fuel`
attempts (Go counts `attempts` up to `maxRandPortAttempts`) to draw one
port in `[minDynamicPort, maxDynamicPort)` that is neither used, reserved,
nor already selected in this call. -/
def stochasticPick (nodeUsed : Option Bitmap) (minP maxP : Int)
    (reserved dynamic : List Int) : Nat → Rng → Except String Int × Rng
  | 0, rng => (.error "stochastic dynamic port selection failed", rng)
  | fuel + 1, rng =>
    let (d, rng') := rng.intn (maxP - minP).toNat
    let randPort : Int := minP + Int.ofNat d
    if checkOpt nodeUsed randPort then
      stochasticPick nodeUsed minP maxP reserved dynamic fuel rng'
    else if isPortReserved reserved randPort || isPortReserved dynamic randPort then
      stochasticPick nodeUsed minP maxP reserved dynamic fuel rng'
    else
      (.ok randPort, rng')

/-- The outer loop of `getDynamicPortsStochastic`, accumulating `dynamic`. -/
def stochasticLoop (nodeUsed : Option Bitmap) (minP maxP : Int)
    (reserved : List Int) (dynamic : List Int) :
    Nat → Rng → Except String (List Int) × Rng
  | 0, rng => (.ok dynamic, rng)
  | count + 1, rng =>
    match stochasticPick nodeUsed minP maxP reserved dynamic
        maxRandPortAttempts rng with
    | (.error e, rng') => (.error e, rng')
    | (.ok p, rng') =>
      stochasticLoop nodeUsed minP maxP reserved (dynamic ++ [p]) count rng'

/-- `getDynamicPortsStochastic` from network.go. -/
def getDynamicPortsStochastic (nodeUsed : Option Bitmap) (minP maxP : Int)
    (reservedPorts : List Port) (count : Nat) (rng : Rng) :
    Except String (List Int) × Rng :=
  stochasticLoop nodeUsed minP maxP (reservedPorts.map (·.value)) [] count rng

/-- One simultaneous Go swap `l[i], l[j] = l[j], l[i]`. -/
def listSwap (l : List Int) (i j : Nat) : List Int :=
  (l.set i (l.getD j 0)).set j (l.getD i 0)

/-- The Fisher-Yates prefix loop of `getDynamicPortsPrecise`: `steps`
remaining swaps, `i` the current position. -/
def shuffleGo (numAvailable : Nat) : List Int → Nat → Nat → Rng →
    List Int × Rng
  | l, _, 0, rng => (l, rng)
  | l, i, steps + 1, rng =>
    let (j, rng') := rng.intn numAvailable
    shuffleGo numAvailable (listSwap l i j) (i + 1) steps rng'

/-- `getDynamicPortsPrecise` from network.go: copy the used bitmap (or start
empty), set every reserved port value, list the free indices in
`[minDynamicPort, maxDynamicPort]`, fail if fewer than `numDyn`, otherwise
Fisher-Yates-swap the prefix and return the first `numDyn` entries. -/
def getDynamicPortsPrecise (nodeUsed : Option Bitmap) (minP maxP : Int)
    (reserved : List Port) (numDyn : Nat) (rng : Rng) :
    Except String (List Int) × Rng :=
  let usedSet : Bitmap :=
    reserved.foldl (fun s p => insert (goUint p.value) s) (nodeUsed.getD ∅)
  let availablePorts := indexesInRange usedSet false (goUint minP) (goUint maxP)
  if availablePorts.length < numDyn then
    (.error "dynamic port selection failed", rng)
  else
    let (l, rng') := shuffleGo availablePorts.length availablePorts 0 numDyn rng
    (.ok (l.take numDyn), rng')

/-! ## AssignPorts (group-level offer engine) -/

/-- Outcome of the reserved-port address loop in `AssignPorts`:
`hardErr` models the `return nil, err` statements inside the loop body,
`found` models `allocPort` being set followed by `break`, `exhausted`
models the loop running out of addresses with `allocPort == nil`. -/
inductive ResOutcome where
  | hardErr (e : String)
  | found (m : AllocatedPortMapping)
  | exhausted
deriving DecidableEq

/-- The `for _, addr := range idx.HostNetworks[port.HostNetwork]` loop of
the reserved branch of `AssignPorts`.  The body unconditionally returns or
breaks, so only the first address is ever examined; `addrErr` is declared
in the source but never assigned in this branch, so it is omitted. -/
def assignReservedInner (idx : NetworkIndex) (port : Port) :
    List NodeNetworkAddress → NetworkIndex × ResOutcome
  | [] => (idx, .exhausted)
  | addr :: _ =>
    let (used, idx') := getUsedPortsFor idx addr.address
    if port.value < 0 ∨ port.value ≥ (MaxValidPort : Int) then
      (idx', .hardErr ("invalid port " ++ toString port.value ++ " (out of range)"))
    else if goUint port.value ∈ used then
      (idx', .hardErr ("reserved port collision " ++ port.label ++ "=" ++
        toString port.value))
    else
      (idx', .found
        { label := port.label, value := port.value, toVal := port.toVal,
          hostIP := addr.address })

/-- `reservedIdx[port.HostNetwork] = append(..., port)`. -/
def riAdd (ri : List (String × List Port)) (key : String) (p : Port) :
    List (String × List Port) :=
  alSet ri key ((alLookup ri key).getD [] ++ [p])

/-- The `for _, port := range ask.ReservedPorts` loop of `AssignPorts`,
threading the index (mutated by `getUsedPortsFor`), the `reservedIdx` map
and the offer accumulator.  A hard error aborts the whole call. -/
def goReserved (idx : NetworkIndex) (ri : List (String × List Port))
    (offer : AllocatedPorts) :
    List Port →
    NetworkIndex × Except String (List (String × List Port) × AllocatedPorts)
  | [] => (idx, .ok (ri, offer))
  | port :: rest =>
    let ri' := riAdd ri port.hostNetwork port
    match assignReservedInner idx port
        ((alLookup idx.hostNetworks port.hostNetwork).getD []) with
    | (idx', .hardErr e) => (idx', .error e)
    | (idx', .found m) => goReserved idx' ri' (offer ++ [m]) rest
    | (idx', .exhausted) =>
      (idx', .error ("no addresses available for " ++ port.hostNetwork ++
        " network"))

/-- The `for _, addr := range idx.HostNetworks[port.HostNetwork]` loop of
the dynamic branch of `AssignPorts`: stochastic selection of one port, then
precise on stochastic failure; a precise failure records `addrErr` and
moves on to the next address; success builds the mapping (with the
`to == -1` → `to = value` rewrite) and breaks. -/
def assignDynamicInner (idx : NetworkIndex) (port : Port)
    (resPorts : List Port) (addrErr : Option String) :
    List NodeNetworkAddress → Rng →
    NetworkIndex × Rng × Option AllocatedPortMapping × Option String
  | [], rng => (idx, rng, none, addrErr)
  | addr :: rest, rng =>
    let (used, idx') := getUsedPortsFor idx addr.address
    match getDynamicPortsStochastic (some used) idx'.minDynamicPort
        idx'.maxDynamicPort resPorts 1 rng with
    | (.ok dynPorts, rng1) =>
      let m0 : AllocatedPortMapping :=
        { label := port.label, value := dynPorts.getD 0 0,
          toVal := port.toVal, hostIP := addr.address }
      let m := if m0.toVal = -1 then { m0 with toVal := m0.value } else m0
      (idx', rng1, some m, addrErr)
    | (.error _, rng1) =>
      match getDynamicPortsPrecise (some used) idx'.minDynamicPort
          idx'.maxDynamicPort resPorts 1 rng1 with
      | (.ok dynPorts, rng2) =>
        let m0 : AllocatedPortMapping :=
          { label := port.label, value := dynPorts.getD 0 0,
            toVal := port.toVal, hostIP := addr.address }
        let m := if m0.toVal = -1 then { m0 with toVal := m0.value } else m0
        (idx', rng2, some m, addrErr)
      | (.error e2, rng2) =>
        assignDynamicInner idx' port resPorts (some e2) rest rng2

/-- The `for _, port := range ask.DynamicPorts` loop of `AssignPorts`. -/
def goDynamic (idx : NetworkIndex) (ri : List (String × List Port))
    (offer : AllocatedPorts) :
    List Port → Rng → NetworkIndex × Rng × Except String AllocatedPorts
  | [], rng => (idx, rng, .ok offer)
  | port :: rest, rng =>
    match assignDynamicInner idx port ((alLookup ri port.hostNetwork).getD [])
        none ((alLookup idx.hostNetworks port.hostNetwork).getD []) rng with
    | (idx', rng', some m, _) => goDynamic idx' ri (offer ++ [m]) rest rng'
    | (idx', rng', none, some e) => (idx', rng', .error e)
    | (idx', rng', none, none) =>
      (idx', rng', .error ("no addresses available for " ++ port.hostNetwork ++
        " network"))

/-- `NetworkIndex.AssignPorts` from network.go.  Returns the (possibly
`getUsedPortsFor`-extended) index, the advanced random stream and the
offer or error. -/
def assignPorts (idx : NetworkIndex) (ask : NetworkResource) (rng : Rng) :
    NetworkIndex × Rng × Except String AllocatedPorts :=
  match goReserved idx [] [] ask.reservedPorts with
  | (idx1, .error e) => (idx1, rng, .error e)
  | (idx1, .ok (ri, offer)) => goDynamic idx1 ri offer ask.dynamicPorts rng

/-! ## Reservation intake -/

/-- The port loop of `AddReserved` (`for _, ports := range [][]Port{...}`
flattened to one list).  The final `Bool` reports the early
`return true, []string{"invalid port …"}` (which discards the reasons
accumulated so far); bits set before the early return persist. -/
def addPortsLoop (used : Bitmap) (collide : Bool) (reasons : List String) :
    List Port → Bitmap × Bool × List String × Bool
  | [] => (used, collide, reasons, false)
  | p :: rest =>
    if p.value < 0 ∨ p.value ≥ (MaxValidPort : Int) then
      (used, true, ["invalid port " ++ toString p.value], true)
    else if goUint p.value ∈ used then
      addPortsLoop used true
        (reasons ++ ["port " ++ toString p.value ++ " already in use"]) rest
    else
      addPortsLoop (insert (goUint p.value) used) collide reasons rest

/-- `NetworkIndex.AddReserved` from network.go.  On the invalid-port early
return the `UsedBandwidth` line is skipped. -/
def addReserved (idx : NetworkIndex) (n : NetworkResource) :
    NetworkIndex × Bool × List String :=
  let (used, idx1) := getUsedPortsFor idx n.ip
  let (used', collide, reasons, aborted) :=
    addPortsLoop used false [] (n.reservedPorts ++ n.dynamicPorts)
  let idx2 := { idx1 with usedPorts := alSet idx1.usedPorts n.ip used' }
  if aborted then (idx2, collide, reasons)
  else
    ({ idx2 with usedBandwidth := bwAdd idx2.usedBandwidth n.device n.mbits },
      collide, reasons)

/-- The loop of `AddReservedPorts`, threading the accumulators.  Each port
is keyed by its own `HostIP`; the invalid-port case returns early with the
single reason, after `getUsedPortsFor` has already run for that IP. -/
def addReservedPortsLoop (idx : NetworkIndex) (collide : Bool)
    (reasons : List String) :
    List AllocatedPortMapping → NetworkIndex × Bool × List String
  | [] => (idx, collide, reasons)
  | port :: rest =>
    let (used, idx1) := getUsedPortsFor idx port.hostIP
    if port.value < 0 ∨ port.value ≥ (MaxValidPort : Int) then
      (idx1, true, ["invalid port " ++ toString port.value])
    else if goUint port.value ∈ used then
      addReservedPortsLoop idx1 true
        (reasons ++ ["port " ++ toString port.value ++ " already in use"]) rest
    else
      addReservedPortsLoop
        { idx1 with
          usedPorts := alSet idx1.usedPorts port.hostIP
            (insert (goUint port.value) used) }
        collide reasons rest

/-- `NetworkIndex.AddReservedPorts` from network.go. -/
def addReservedPorts (idx : NetworkIndex) (ports : AllocatedPorts) :
    NetworkIndex × Bool × List String :=
  addReservedPortsLoop idx false [] ports

/-! ## AddAllocs -/

/-- The fields of `Resources` that network.go reads. -/
structure Resources where
  networks : List NetworkResource := []
deriving DecidableEq

/-- The fields of `AllocatedTaskResources` that network.go reads. -/
structure AllocatedTaskResources where
  networks : List NetworkResource := []
deriving DecidableEq

/-- The fields of `AllocatedSharedResources` that network.go reads. -/
structure AllocatedSharedResources where
  ports : AllocatedPorts := []
  networks : List NetworkResource := []
deriving DecidableEq

/-- The fields of `AllocatedResources` that network.go reads.  The Go
`Tasks` map becomes an association list (its iteration order is arbitrary
in Go; the claims do not depend on it). -/
structure AllocatedResources where
  shared : AllocatedSharedResources := {}
  tasks : List (String × AllocatedTaskResources) := []
deriving DecidableEq

/-- An allocation as consumed by `AddAllocs`.  `TerminalStatus()` is a
predicate on fields structs.go defines outside the given sources; it is
embedded as the boolean field `terminal`. -/
structure Allocation where
  id : String := ""
  terminal : Bool := false
  allocatedResources : Option AllocatedResources := none
  taskResources : List (String × Resources) := []
deriving DecidableEq

/-- Go's `fmt` rendering `%v` of a `[]string`. -/
def reasonsToString (rs : List String) : String :=
  "[" ++ String.intercalate " " rs ++ "]"

/-- The `alloc.AllocatedResources.Shared.Networks` loop of `AddAllocs`. -/
def addAllocNetworks (idx : NetworkIndex) (collide : Bool) (reason : String)
    (allocId : String) :
    List NetworkResource → NetworkIndex × Bool × String
  | [] => (idx, collide, reason)
  | network :: rest =>
    let (idx', c, r) := addReserved idx network
    if c then
      addAllocNetworks idx' true
        ("collision when reserving port for network " ++ network.ip ++
          " in alloc " ++ allocId ++ ": " ++ reasonsToString r) allocId rest
    else
      addAllocNetworks idx' collide reason allocId rest

/-- The `alloc.AllocatedResources.Tasks` loop of `AddAllocs`: tasks with no
networks are skipped, otherwise the task's first network is reserved. -/
def addAllocTasks (idx : NetworkIndex) (collide : Bool) (reason : String)
    (allocId : String) :
    List (String × AllocatedTaskResources) → NetworkIndex × Bool × String
  | [] => (idx, collide, reason)
  | (task, resources) :: rest =>
    match resources.networks with
    | [] => addAllocTasks idx collide reason allocId rest
    | n :: _ =>
      let (idx', c, r) := addReserved idx n
      if c then
        addAllocTasks idx' true
          ("collision when reserving port for network " ++ n.ip ++
            " in task " ++ task ++ " of alloc " ++ allocId ++ ": " ++
            reasonsToString r) allocId rest
      else
        addAllocTasks idx' collide reason allocId rest

/-- The legacy `alloc.TaskResources` loop of `AddAllocs`. -/
def addAllocTaskResources (idx : NetworkIndex) (collide : Bool)
    (reason : String) (allocId : String) :
    List (String × Resources) → NetworkIndex × Bool × String
  | [] => (idx, collide, reason)
  | (task, resources) :: rest =>
    match resources.networks with
    | [] => addAllocTaskResources idx collide reason allocId rest
    | n :: _ =>
      let (idx', c, r) := addReserved idx n
      if c then
        addAllocTaskResources idx' true
          ("(deprecated) collision when reserving port for network " ++
            n.ip ++ " in task " ++ task ++ " of alloc " ++ allocId ++ ": " ++
            reasonsToString r) allocId rest
      else
        addAllocTaskResources idx' collide reason allocId rest

/-- The body of the `for _, alloc := range allocs` loop of `AddAllocs`
for one non-terminal allocation, threading the `collide`/`reason`
accumulators exactly as the source does. -/
def processAlloc (idx : NetworkIndex) (collide : Bool) (reason : String)
    (alloc : Allocation) : NetworkIndex × Bool × String :=
  match alloc.allocatedResources with
  | some ar =>
    if ar.shared.ports ≠ [] then
      let (idx1, c, r) := addReservedPorts idx ar.shared.ports
      if c then
        (idx1, true, "collision when reserving port for alloc " ++ alloc.id ++
          ": " ++ reasonsToString r)
      else (idx1, collide, reason)
    else
      let (idx1, collide1, reason1) :=
        addAllocNetworks idx collide reason alloc.id ar.shared.networks
      addAllocTasks idx1 collide1 reason1 alloc.id ar.tasks
  | none =>
    addAllocTaskResources idx collide reason alloc.id alloc.taskResources

/-- The `for _, alloc := range allocs` loop of `AddAllocs`. -/
def addAllocsCore (idx : NetworkIndex) (collide : Bool) (reason : String) :
    List Allocation → NetworkIndex × Bool × String
  | [] => (idx, collide, reason)
  | alloc :: rest =>
    if alloc.terminal then addAllocsCore idx collide reason rest
    else
      let (idx', c, r) := processAlloc idx collide reason alloc
      addAllocsCore idx' c r rest

/-- `NetworkIndex.AddAllocs` from network.go. -/
def addAllocs (idx : NetworkIndex) (allocs : List Allocation) :
    NetworkIndex × Bool × String :=
  addAllocsCore idx false "" allocs

/-! ## AssignTaskNetwork (legacy task-level offer engine)

The CIDR machinery (`net.ParseCIDR`, `IP.Mask`, `IPNet.Contains`,
`IP.String`) comes from the Go standard library; it is modelled here for
IPv4 dotted-quad CIDRs.  Strings in any other form parse to `none`, which
`yieldIP` skips, exactly as it skips every string `net.ParseCIDR`
rejects. -/

/-- Parse `"a.b.c.d"` into four bytes. -/
def parseIPv4 (s : String) : Option (List Nat) :=
  match (s.splitOn ".").mapM String.toNat? with
  | some bytes => if bytes.length = 4 ∧ bytes.all (· ≤ 255) then some bytes else none
  | none => none

/-- Modelled from Go's `net.ParseCIDR`, IPv4 form: `"a.b.c.d/k"` with
`k ≤ 32` yields the address bytes and the prefix length. -/
def parseCIDR (s : String) : Option (List Nat × Nat) :=
  match s.splitOn "/" with
  | [ipStr, kStr] =>
    match parseIPv4 ipStr, kStr.toNat? with
    | some ip, some k => if k ≤ 32 then some (ip, k) else none
    | _, _ => none
  | _ => none

/-- Keep the top `bits` bits of a byte (`bits ≤ 8`). -/
def maskByte (byte bits : Nat) : Nat :=
  byte / 2 ^ (8 - bits) * 2 ^ (8 - bits)

/-- `ip.Mask(ipnet.Mask)`: zero the host bits of a `k`-bit prefix. -/
def applyMask : List Nat → Nat → List Nat
  | [], _ => []
  | b :: rest, k => maskByte b (min 8 k) :: applyMask rest (k - min 8 k)

/-- `ipnet.Contains(ip)`: the masked address equals the network base. -/
def cidrContains (base : List Nat) (k : Nat) (ip : List Nat) : Bool :=
  applyMask ip k = base

/-- `incIP` from network.go on the reversed byte list: increment the first
byte; on wrap-around to 0 carry into the next. -/
def incIPRev : List Nat → List Nat
  | [] => []
  | b :: rest =>
    let b' := (b + 1) % 256
    if b' > 0 then b' :: rest else b' :: incIPRev rest

/-- `incIP` from network.go: increment the rightmost byte, carrying
right-to-left. -/
def incIP (ip : List Nat) : List Nat := (incIPRev ip.reverse).reverse

/-- Go's `net.IP.String()` for the 4-byte addresses this model produces:
the dotted-quad form. -/
def ipToString (ip : List Nat) : String :=
  String.intercalate "." (ip.map toString)

/-- The body of the `yieldIP` callback in `AssignTaskNetwork` for one
candidate IP: bandwidth gate, reserved-port collision gate, stochastic
selection with precise fallback, offer construction with the
`to == -1` → `to = value` rewrite.  Returns either a finished offer
(`err` becomes `none`, iteration stops) or the `err` value this candidate
leaves behind (iteration continues). -/
def checkAskReserved (used : Option Bitmap) : List Port → Option String
  | [] => none
  | port :: rest =>
    if port.value < 0 ∨ port.value ≥ (MaxValidPort : Int) then
      some ("invalid port " ++ toString port.value ++ " (out of range)")
    else if checkOpt used port.value then
      some ("reserved port collision " ++ port.label ++ "=" ++
        toString port.value)
    else checkAskReserved used rest

/-- The `BUILD_OFFER` loop of `AssignTaskNetwork`: fill each ask dynamic
port with its selected value, rewriting `to == -1` to the value. -/
def buildDynPorts (askPorts : List Port) (dynPorts : List Int) : List Port :=
  (askPorts.zip dynPorts).map fun pv =>
    let p1 := { pv.1 with value := pv.2 }
    if p1.toVal = -1 then { p1 with toVal := pv.2 } else p1

/-- One candidate IP inside `AssignTaskNetwork`'s `yieldIP` callback. -/
def tryTaskOffer (idx : NetworkIndex) (ask : NetworkResource)
    (n : NetworkResource) (ipStr : String) (rng : Rng) :
    Rng × Option NetworkResource × Option String :=
  let availBandwidth := bwGet idx.availBandwidth n.device
  let usedBandwidth := bwGet idx.usedBandwidth n.device
  if usedBandwidth + ask.mbits > availBandwidth then
    (rng, none, some "bandwidth exceeded")
  else
    let used := alLookup idx.usedPorts ipStr
    match checkAskReserved used ask.reservedPorts with
    | some e => (rng, none, some e)
    | none =>
      let mkOffer (dynPorts : List Int) : NetworkResource :=
        { mode := ask.mode, device := n.device, ip := ipStr,
          mbits := ask.mbits, dns := ask.dns,
          reservedPorts := ask.reservedPorts,
          dynamicPorts := buildDynPorts ask.dynamicPorts dynPorts }
      match getDynamicPortsStochastic used idx.minDynamicPort
          idx.maxDynamicPort ask.reservedPorts ask.dynamicPorts.length rng with
      | (.ok dynPorts, rng1) => (rng1, some (mkOffer dynPorts), none)
      | (.error _, rng1) =>
        match getDynamicPortsPrecise used idx.minDynamicPort
            idx.maxDynamicPort ask.reservedPorts ask.dynamicPorts.length rng1 with
        | (.ok dynPorts, rng2) => (rng2, some (mkOffer dynPorts), none)
        | (.error e, rng2) => (rng2, none, some e)

/-- The `for ip := ip.Mask(...); ipnet.Contains(ip); incIP(ip)` loop of
`yieldIP` for one task network.  `fuel` bounds the enumeration at the
number of addresses the prefix contains (Go's loop visits exactly these
before `Contains` fails; for a `/0` ask Go would cycle, which no claim
exercises). -/
def ipLoop (idx : NetworkIndex) (ask : NetworkResource) (n : NetworkResource)
    (base : List Nat) (k : Nat) :
    Nat → List Nat → Option String → Rng →
    Rng × Option NetworkResource × Option String
  | 0, _, err, rng => (rng, none, err)
  | fuel + 1, ip, err, rng =>
    if cidrContains base k ip then
      match tryTaskOffer idx ask n (ipToString ip) rng with
      | (rng', some offer, _) => (rng', some offer, none)
      | (rng', none, err') =>
        ipLoop idx ask n base k fuel (incIP ip) (err'.orElse fun _ => err) rng'
    else (rng, none, err)

/-- The `for _, n := range idx.TaskNetworks` loop of `yieldIP`, skipping
networks whose CIDR does not parse. -/
def taskNetLoop (idx : NetworkIndex) (ask : NetworkResource) :
    List NetworkResource → Option String → Rng →
    Rng × Option NetworkResource × Option String
  | [], err, rng => (rng, none, err)
  | n :: rest, err, rng =>
    match parseCIDR n.cidr with
    | none => taskNetLoop idx ask rest err rng
    | some (ip, k) =>
      let base := applyMask ip k
      match ipLoop idx ask n base k (2 ^ (8 * ip.length - k)) base err rng with
      | (rng', some offer, _) => (rng', some offer, none)
      | (rng', none, err') => taskNetLoop idx ask rest err' rng'

/-- `NetworkIndex.AssignTaskNetwork` from network.go.  `err` starts as
`"no networks available"`; a successful offer resets it to `none`.
`AssignTaskNetwork` reads `UsedPorts` directly (no `getUsedPortsFor`), so
the index is not mutated and is not returned. -/
def assignTaskNetwork (idx : NetworkIndex) (ask : NetworkResource)
    (rng : Rng) : Rng × Option NetworkResource × Option String :=
  taskNetLoop idx ask idx.taskNetworks (some "no networks available") rng

/-! ## Node description and SetNode -/

/-- `NodeReservedNetworkResources` (reserved host ports range string). -/
structure NodeReservedNetworkResources where
  reservedHostPorts : String := ""
deriving DecidableEq

/-- `NodeReservedResources`, restricted to the fields network.go reads. -/
structure NodeReservedResources where
  networks : NodeReservedNetworkResources := {}
deriving DecidableEq

/-- `NodeResources`, restricted to the fields network.go reads. -/
structure NodeResources where
  networks : List NetworkResource := []
  nodeNetworks : List NodeNetworkResource := []
  minDynamicPort : Int := 0
  maxDynamicPort : Int := 0
deriving DecidableEq

/-- A `Node` as consumed by `SetNode` (optional pointers become
`Option`). -/
structure Node where
  nodeResources : Option NodeResources := none
  reservedResources : Option NodeReservedResources := none
  resources : Option Resources := none
  reserved : Option Resources := none
deriving DecidableEq

/-- Insert into a sorted duplicate-free list, keeping it so. -/
def insertSorted (x : Nat) : List Nat → List Nat
  | [] => [x]
  | y :: rest =>
    if x < y then x :: y :: rest
    else if x = y then y :: rest
    else y :: insertSorted x rest

/-- Modelled from the spec: one item of a port-range string — `N` or
`N-M` with `N ≤ M`, every value `< MAX_VALID_PORT` (the parser itself,
structs.go's `ParsePortRanges`, is outside the given sources). -/
def parseRangeItem (item : String) : Except String (List Nat) :=
  match item.splitOn "-" with
  | [a] =>
    match a.toNat? with
    | some n =>
      if n ≥ MaxValidPort then .error ("port must be < 65536 but found " ++ toString n)
      else .ok [n]
    | none => .error ("invalid port: " ++ a)
  | [a, b] =>
    match a.toNat?, b.toNat? with
    | some lo, some hi =>
      if lo > hi then .error ("invalid range: " ++ item)
      else if hi ≥ MaxValidPort then .error ("port must be < 65536 but found " ++ toString hi)
      else .ok (List.range' lo (hi + 1 - lo))
    | _, _ => .error ("invalid port range: " ++ item)
  | _ => .error ("invalid port range: " ++ item)

/-- Modelled from the spec: `ParsePortRanges` — comma-separated items,
whitespace around items tolerated, emits the sorted duplicate-free list of
port numbers, fails on malformed input. -/
def parsePortRanges (s : String) : Except String (List Nat) :=
  (s.splitOn ",").foldl
    (fun acc item =>
      match acc with
      | .error e => .error e
      | .ok ports =>
        match parseRangeItem item.trim with
        | .error e => .error e
        | .ok more => .ok (more.foldl (fun l p => insertSorted p l) ports))
    (.ok [])

/-- The port loop of `SetNode`'s legacy `node.Reserved.Networks` branch:
range-check (note the source's `p.Value > MaxValidPort`, strictly
greater), append to `globalResPorts`, set on the per-IP bitmap.  The
invalid-port early return keeps the bits set so far. -/
def legacyPortsLoop (used : Bitmap) (global : List Nat) :
    List Port → Bitmap × List Nat × Option String
  | [] => (used, global, none)
  | p :: rest =>
    if p.value > (MaxValidPort : Int) ∨ p.value < 0 then
      (used, global,
        some ("invalid port " ++ toString p.value ++ " for reserved_ports"))
    else
      legacyPortsLoop (insert (goUint p.value) used)
        (global ++ [goUint p.value]) rest

/-- The `node.Reserved.Networks` loop of `SetNode`: per network, mark
`ReservedPorts ∪ DynamicPorts` on the network's IP and accumulate the
global reserved ports; a non-empty device also reserves bandwidth.  An
error aborts, keeping the mutations made so far. -/
def legacyReservedLoop (idx : NetworkIndex) (global : List Nat) :
    List NetworkResource → NetworkIndex × List Nat × Option String
  | [] => (idx, global, none)
  | n :: rest =>
    let (used, idx1) := getUsedPortsFor idx n.ip
    match legacyPortsLoop used global (n.reservedPorts ++ n.dynamicPorts) with
    | (used', global', some e) =>
      ({ idx1 with usedPorts := alSet idx1.usedPorts n.ip used' }, global',
        some e)
    | (used', global', none) =>
      let idx2 := { idx1 with usedPorts := alSet idx1.usedPorts n.ip used' }
      let idx3 :=
        if n.device ≠ "" then
          { idx2 with usedBandwidth := bwAdd idx2.usedBandwidth n.device n.mbits }
        else idx2
      legacyReservedLoop idx3 global' rest

/-- The `taskNetworks` loop of `SetNode`: keep networks with a device,
record `avail_bandwidth` and mark every global reserved port on the
network's IP. -/
def markTaskNetworks (idx : NetworkIndex) (global : List Nat) :
    List NetworkResource → NetworkIndex
  | [] => idx
  | n :: rest =>
    if n.device ≠ "" then
      let idx1 :=
        { idx with
            taskNetworks := idx.taskNetworks ++ [n],
            availBandwidth := alSet idx.availBandwidth n.device n.mbits }
      let (used, idx2) := getUsedPortsFor idx1 n.ip
      let used' := global.foldl (fun s p => insert p s) used
      markTaskNetworks
        { idx2 with usedPorts := alSet idx2.usedPorts n.ip used' } global rest
    else markTaskNetworks idx global rest

/-- The addresses loop of `SetNode`'s `NodeNetworks` phase: index the
address under its alias, mark the global reserved ports, and additionally
parse and mark the address's own `ReservedPorts` string.  A parse error
aborts after the global marks were made. -/
def addressesLoop (idx : NetworkIndex) (global : List Nat) :
    List NodeNetworkAddress → NetworkIndex × Option String
  | [] => (idx, none)
  | a :: rest =>
    let idx1 :=
      { idx with
          hostNetworks :=
            alSet idx.hostNetworks a.aliasName
              ((alLookup idx.hostNetworks a.aliasName).getD [] ++ [a]) }
    let (used, idx2) := getUsedPortsFor idx1 a.address
    let used1 := global.foldl (fun s p => insert p s) used
    if a.reservedPorts ≠ "" then
      match parsePortRanges a.reservedPorts with
      | .error e =>
        ({ idx2 with usedPorts := alSet idx2.usedPorts a.address used1 },
          some ("error parsing reserved_ports for network \"" ++ a.aliasName ++
            "\": " ++ e))
      | .ok rp =>
        let used2 := rp.foldl (fun s p => insert p s) used1
        addressesLoop
          { idx2 with usedPorts := alSet idx2.usedPorts a.address used2 }
          global rest
    else
      addressesLoop
        { idx2 with usedPorts := alSet idx2.usedPorts a.address used1 }
        global rest

/-- The `nodeNetworks` loop of `SetNode`. -/
def nodeNetworksLoop (idx : NetworkIndex) (global : List Nat) :
    List NodeNetworkResource → NetworkIndex × Option String
  | [] => (idx, none)
  | n :: rest =>
    match addressesLoop idx global n.addresses with
    | (idx1, some e) => (idx1, some e)
    | (idx1, none) => nodeNetworksLoop idx1 global rest

/-- The tail of `SetNode` after `globalResPorts` is settled: mark the
task networks, process the node networks, apply the dynamic-port-range
overrides. -/
def setNodeRest (idx : NetworkIndex) (global : List Nat)
    (taskNetworks : List NetworkResource) (node : Node) :
    NetworkIndex × Option String :=
  let idx2 := markTaskNetworks idx global taskNetworks
  let nodeNetworks : List NodeNetworkResource :=
    match node.nodeResources with
    | some nr => nr.nodeNetworks
    | none => []
  match nodeNetworksLoop idx2 global nodeNetworks with
  | (idx3, some e) => (idx3, some e)
  | (idx3, none) =>
    let idx4 :=
      match node.nodeResources with
      | some nr =>
        let a :=
          if nr.minDynamicPort > 0 then
            { idx3 with minDynamicPort := nr.minDynamicPort }
          else idx3
        if nr.maxDynamicPort > 0 then
          { a with maxDynamicPort := nr.maxDynamicPort }
        else a
      | none => idx3
    (idx4, none)

/-- The `globalResPorts` phase of `SetNode`: the `ReservedResources`
parse path when `reserved_ports` is set, otherwise the legacy
`node.Reserved.Networks` loop. -/
def setNodeStep2 (idx : NetworkIndex) (node : Node) :
    NetworkIndex × List Nat × Option String :=
  let legacyBranch : NetworkIndex × List Nat × Option String :=
    match node.reserved with
    | some res => legacyReservedLoop idx [] res.networks
    | none => (idx, [], none)
  match node.reservedResources with
  | some rr =>
    if rr.networks.reservedHostPorts ≠ "" then
      match parsePortRanges rr.networks.reservedHostPorts with
      | .error e => (idx, [], some ("error parsing reserved_ports: " ++ e))
      | .ok resPorts => (idx, resPorts, none)
    else legacyBranch
  | none => legacyBranch

/-- `NetworkIndex.SetNode` from network.go.  Returns the updated index and
the error, if any; an error keeps the mutations made before it, matching
the in-place mutation of the source. -/
def setNode (idx : NetworkIndex) (node : Node) : NetworkIndex × Option String :=
  let taskNetworks : List NetworkResource :=
    match node.nodeResources with
    | some nr =>
      if nr.networks ≠ [] then nr.networks
      else match node.resources with
        | some r => r.networks
        | none => []
    | none =>
      match node.resources with
      | some r => r.networks
      | none => []
  match setNodeStep2 idx node with
  | (idx1, _, some e) => (idx1, some e)
  | (idx1, global, none) => setNodeRest idx1 global taskNetworks node

/-- The observable effect of `Release` followed by the reuse discipline of
`SetNode`'s documentation: `used_ports` is cleared between `SetNode`
runs.  (`Release` itself only returns the bitmaps to the pool.) -/
def clearUsedPorts (idx : NetworkIndex) : NetworkIndex :=
  { idx with usedPorts := [] }

deriving instance DecidableEq for Except

/-! ## Specification-side definitions

These restate claim language for comparison with the code-side
definitions above. -/

/-- Spec-side (claim C5): the ports of the dynamic range `[minP, maxP]`
that are neither set in `used` nor listed among the reserved port
values. -/
def freePortsSpec (used : Option Bitmap) (reserved : List Port)
    (minP maxP : Int) : List Int :=
  ((List.range' minP.toNat (maxP.toNat + 1 - minP.toNat)).filter
    (fun p => decide (p < MaxValidPort) && !checkOpt used (Int.ofNat p) &&
      !decide (Int.ofNat p ∈ reserved.map (·.value)))).map Int.ofNat

/-- Spec-side (claim C6): one `AddReserved` / `AddReservedPorts` call. -/
inductive ResOp where
  | res (n : NetworkResource)
  | resPorts (ps : AllocatedPorts)
deriving DecidableEq

/-- Apply one reservation call. -/
def applyOp (idx : NetworkIndex) : ResOp → NetworkIndex × Bool × List String
  | .res n => addReserved idx n
  | .resPorts ps => addReservedPorts idx ps

/-- Apply a sequence of reservation calls, keeping only the state. -/
def applyOps (idx : NetworkIndex) : List ResOp → NetworkIndex
  | [] => idx
  | op :: rest => applyOps (applyOp idx op).1 rest

/-- Spec-side (claim C6): no call in the sequence reports a collision. -/
def noCollisionsB (idx : NetworkIndex) : List ResOp → Bool
  | [] => true
  | op :: rest =>
    let (idx', c, _) := applyOp idx op
    !c && noCollisionsB idx' rest

/-- Spec-side (claim C6): every port value supplied by the call is in
`[0, MaxValidPort)`. -/
def opValidB : ResOp → Bool
  | .res n => (n.reservedPorts ++ n.dynamicPorts).all
      (fun p => 0 ≤ p.value && p.value < (MaxValidPort : Int))
  | .resPorts ps => ps.all
      (fun p => 0 ≤ p.value && p.value < (MaxValidPort : Int))

/-- Spec-side (claim C6): the call reserves port `p` for IP `ip`. -/
def opReserves (ip : String) (p : Nat) : ResOp → Bool
  | .res n => n.ip = ip &&
      (n.reservedPorts ++ n.dynamicPorts).any (fun q => q.value = Int.ofNat p)
  | .resPorts ps => ps.any (fun m => m.hostIP = ip && m.value = Int.ofNat p)

/-- Spec-side (claim C6): some call in the sequence reserves `(ip, p)`. -/
def opsReserve (ops : List ResOp) (ip : String) (p : Nat) : Bool :=
  ops.any (opReserves ip p)

/-- Spec-side (claim C7): the effect of one non-terminal allocation run
from neutral accumulators: the updated index and, when the allocation
collided, its reason. -/
def allocStep (idx : NetworkIndex) (alloc : Allocation) :
    NetworkIndex × Option String :=
  let (idx', c, r) := processAlloc idx false "" alloc
  (idx', if c then some r else none)

/-- Spec-side (claim C7): the reason of the most recent colliding
(non-terminal) allocation of the sequence, if any. -/
def lastCollisionReason (idx : NetworkIndex) : List Allocation → Option String
  | [] => none
  | alloc :: rest =>
    if alloc.terminal then lastCollisionReason idx rest
    else
      let (idx', o) := allocStep idx alloc
      match lastCollisionReason idx' rest with
      | some r => some r
      | none => o

/-- Spec-side (claim C7): the state after processing every non-terminal
allocation in order (collisions never stop processing). -/
def allocsFoldState (idx : NetworkIndex) (allocs : List Allocation) :
    NetworkIndex :=
  allocs.foldl (fun i a => if a.terminal then i else (allocStep i a).1) idx

/-- Proof apparatus: the index permutation realised by `listSwap l i j`
(position `k` of the swapped list holds the element from position
`swapIdx i j k` of `l`). -/
def swapIdx (i j k : Nat) : Nat :=
  if k = j then i else if k = i then j else k

/-! ## Basic lemmas -/

theorem alLookup_alSet {α : Type} (l : List (String × α)) (key key' : String)
    (v : α) :
    alLookup (alSet l key v) key' =
      if key' = key then some v else alLookup l key' := by
  induction l with
  | nil =>
    by_cases h : key' = key <;> simp [alSet, alLookup, h, Ne.symm]
  | cons kv rest ih =>
    obtain ⟨k, w⟩ := kv
    by_cases hk : k = key
    · subst hk
      by_cases h : key' = k <;> simp [alSet, alLookup, h, Ne.symm]
    · by_cases h : key' = k
      · subst h
        have hne : ¬key' = key := fun hc => hk (hc ▸ rfl)
        simp [alSet, alLookup, hk, hne]
      · have h2 : ¬k = key' := fun hc => h (hc ▸ rfl)
        simp [alSet, alLookup, hk, h, h2, ih]

theorem checkUsed_eq_of_usedPorts_eq {idx idx' : NetworkIndex}
    (h : idx.usedPorts = idx'.usedPorts) (ip : String) (p : Nat) :
    checkUsed idx ip p = checkUsed idx' ip p := by
  simp [checkUsed, h]

theorem getUsedPortsFor_usedPorts_lookup (idx : NetworkIndex) (ip ip' : String) :
    alLookup (getUsedPortsFor idx ip).2.usedPorts ip' =
      if ip' = ip ∧ alLookup idx.usedPorts ip = none then some ∅
      else alLookup idx.usedPorts ip' := by
  unfold getUsedPortsFor
  cases h : alLookup idx.usedPorts ip with
  | some b =>
    simp only [h]
    rw [if_neg]
    rintro ⟨_, h2⟩
    exact Option.noConfusion h2
  | none =>
    simp only [h, alLookup_alSet]
    by_cases h' : ip' = ip
    · simp [h', h]
    · simp [h']

theorem checkUsed_getUsedPortsFor (idx : NetworkIndex) (ip ip' : String)
    (p : Nat) :
    checkUsed (getUsedPortsFor idx ip).2 ip' p = checkUsed idx ip' p := by
  unfold checkUsed
  rw [getUsedPortsFor_usedPorts_lookup]
  by_cases h : ip' = ip ∧ alLookup idx.usedPorts ip = none
  · rw [if_pos h, h.1, h.2]
    simp
  · rw [if_neg h]

theorem getUsedPortsFor_fst (idx : NetworkIndex) (ip : String) (p : Nat) :
    decide (p ∈ (getUsedPortsFor idx ip).1) = checkUsed idx ip p := by
  unfold getUsedPortsFor checkUsed
  cases h : alLookup idx.usedPorts ip <;> simp [h]

/-! ## C1: AssignPorts does not change used-port membership -/

theorem assignReservedInner_fst_checkUsed (idx : NetworkIndex) (port : Port)
    (addrs : List NodeNetworkAddress) (ip : String) (p : Nat) :
    checkUsed (assignReservedInner idx port addrs).1 ip p =
      checkUsed idx ip p := by
  cases addrs with
  | nil => rfl
  | cons addr rest =>
    have h2 := checkUsed_getUsedPortsFor idx addr.address ip p
    simp only [assignReservedInner]
    rcases hgu : getUsedPortsFor idx addr.address with ⟨used, idx'⟩
    rw [hgu] at h2
    split_ifs <;> simpa using h2

theorem goReserved_fst_checkUsed (ports : List Port) :
    ∀ (idx : NetworkIndex) (ri : List (String × List Port))
      (offer : AllocatedPorts) (ip : String) (p : Nat),
      checkUsed (goReserved idx ri offer ports).1 ip p = checkUsed idx ip p := by
  induction ports with
  | nil => intro idx ri offer ip p; rfl
  | cons port rest ih =>
    intro idx ri offer ip p
    simp only [goReserved]
    rcases hr : assignReservedInner idx port
        ((alLookup idx.hostNetworks port.hostNetwork).getD []) with ⟨idx', out⟩
    have hpres : checkUsed idx' ip p = checkUsed idx ip p := by
      have h := assignReservedInner_fst_checkUsed idx port
        ((alLookup idx.hostNetworks port.hostNetwork).getD []) ip p
      rw [hr] at h
      exact h
    cases out with
    | hardErr e => simpa using hpres
    | found m => rw [ih]; exact hpres
    | exhausted => simpa using hpres

theorem assignDynamicInner_fst_checkUsed (addrs : List NodeNetworkAddress) :
    ∀ (idx : NetworkIndex) (port : Port) (resPorts : List Port)
      (addrErr : Option String) (rng : Rng) (ip : String) (p : Nat),
      checkUsed (assignDynamicInner idx port resPorts addrErr addrs rng).1 ip p =
        checkUsed idx ip p := by
  induction addrs with
  | nil => intro idx port resPorts addrErr rng ip p; rfl
  | cons addr rest ih =>
    intro idx port resPorts addrErr rng ip p
    rcases hgu : getUsedPortsFor idx addr.address with ⟨used, idx'⟩
    have h2 : checkUsed idx' ip p = checkUsed idx ip p := by
      have h := checkUsed_getUsedPortsFor idx addr.address ip p
      rw [hgu] at h
      exact h
    simp only [assignDynamicInner, hgu]
    rcases hst : getDynamicPortsStochastic (some used) idx'.minDynamicPort
        idx'.maxDynamicPort resPorts 1 rng with ⟨r1, rng1⟩
    cases r1 with
    | ok dynPorts => simpa using h2
    | error e1 =>
      rcases hpr : getDynamicPortsPrecise (some used) idx'.minDynamicPort
          idx'.maxDynamicPort resPorts 1 rng1 with ⟨r2, rng2⟩
      cases r2 with
      | ok dynPorts =>
        simp only [hpr]
        simpa using h2
      | error e2 =>
        simp only [hpr]
        simp only [ih]
        exact h2

theorem goDynamic_fst_checkUsed (ports : List Port) :
    ∀ (idx : NetworkIndex) (ri : List (String × List Port))
      (offer : AllocatedPorts) (rng : Rng) (ip : String) (p : Nat),
      checkUsed (goDynamic idx ri offer ports rng).1 ip p =
        checkUsed idx ip p := by
  induction ports with
  | nil => intro idx ri offer rng ip p; rfl
  | cons port rest ih =>
    intro idx ri offer rng ip p
    simp only [goDynamic]
    rcases hd : assignDynamicInner idx port
        ((alLookup ri port.hostNetwork).getD []) none
        ((alLookup idx.hostNetworks port.hostNetwork).getD []) rng
      with ⟨idx', rng', mo, eo⟩
    have hpres : checkUsed idx' ip p = checkUsed idx ip p := by
      have h := assignDynamicInner_fst_checkUsed
        ((alLookup idx.hostNetworks port.hostNetwork).getD []) idx port
        ((alLookup ri port.hostNetwork).getD []) none rng ip p
      rw [hd] at h
      exact h
    cases mo with
    | some m => rw [ih]; exact hpres
    | none => cases eo <;> simpa using hpres

/-- C1: for every index state, ask and random stream, `AssignPorts` does
not change used-port membership: for every IP and port, the port is in
`used_ports[ip]` (absent entry = empty set) before the call iff it is
after, whether the call returns an offer or an error. -/
theorem c1_assignPorts_frame (idx : NetworkIndex) (ask : NetworkResource)
    (rng : Rng) (ip : String) (p : Nat) :
    checkUsed (assignPorts idx ask rng).1 ip p = checkUsed idx ip p := by
  unfold assignPorts
  rcases hr : goReserved idx [] [] ask.reservedPorts with ⟨idx1, out⟩
  have h1 : checkUsed idx1 ip p = checkUsed idx ip p := by
    have h := goReserved_fst_checkUsed ask.reservedPorts idx [] [] ip p
    rw [hr] at h
    exact h
  cases out with
  | error e => simpa using h1
  | ok pr =>
    obtain ⟨ri, offer⟩ := pr
    simp only
    rw [goDynamic_fst_checkUsed]
    exact h1

/-! ## listSwap and shuffle lemmas -/

theorem swapIdx_lt {n i j k : Nat} (hi : i < n) (hj : j < n) (hk : k < n) :
    swapIdx i j k < n := by
  unfold swapIdx
  split_ifs <;> assumption

theorem swapIdx_involutive (i j k : Nat) : swapIdx i j (swapIdx i j k) = k := by
  unfold swapIdx
  split_ifs <;> omega

theorem swapIdx_injective (i j : Nat) {k1 k2 : Nat}
    (h : swapIdx i j k1 = swapIdx i j k2) : k1 = k2 := by
  have := congrArg (swapIdx i j) h
  rwa [swapIdx_involutive, swapIdx_involutive] at this

theorem listSwap_length (l : List Int) (i j : Nat) :
    (listSwap l i j).length = l.length := by
  simp [listSwap]

theorem listSwap_getElem? (l : List Int) (i j : Nat) (hi : i < l.length)
    (hj : j < l.length) (k : Nat) :
    (listSwap l i j)[k]? = l[swapIdx i j k]? := by
  unfold listSwap swapIdx
  rw [List.getElem?_set, List.getElem?_set]
  by_cases h1 : k = j
  · subst h1
    simp [List.length_set, hj, hi, List.getD_eq_getElem,
      List.getElem?_eq_getElem]
  · have h1' : ¬j = k := fun hc => h1 hc.symm
    by_cases h2 : k = i
    · subst h2
      simp [h1', h1, hi, hj, List.getD_eq_getElem, List.getElem?_eq_getElem]
    · have h2' : ¬i = k := fun hc => h2 hc.symm
      simp [h1, h1', h2, h2']

theorem listSwap_mem (l : List Int) (i j : Nat) (hi : i < l.length)
    (hj : j < l.length) {x : Int} (hx : x ∈ listSwap l i j) : x ∈ l := by
  obtain ⟨k, hk⟩ := List.mem_iff_getElem?.mp hx
  rw [listSwap_getElem? l i j hi hj k] at hk
  exact List.mem_iff_getElem?.mpr ⟨swapIdx i j k, hk⟩

theorem listSwap_nodup (l : List Int) (i j : Nat) (hi : i < l.length)
    (hj : j < l.length) (h : l.Nodup) : (listSwap l i j).Nodup := by
  rw [List.nodup_iff_getElem?_ne_getElem?] at h ⊢
  intro k1 k2 hlt hk2 heq
  rw [listSwap_length] at hk2
  rw [listSwap_getElem? l i j hi hj k1, listSwap_getElem? l i j hi hj k2] at heq
  have hne : swapIdx i j k1 ≠ swapIdx i j k2 := fun hc =>
    Nat.ne_of_lt hlt (swapIdx_injective i j hc)
  have hs1 : swapIdx i j k1 < l.length :=
    swapIdx_lt hi hj (Nat.lt_trans hlt hk2)
  have hs2 : swapIdx i j k2 < l.length := swapIdx_lt hi hj hk2
  rcases Nat.lt_or_ge (swapIdx i j k1) (swapIdx i j k2) with hlt2 | hge
  · exact h _ _ hlt2 hs2 heq
  · have hlt2 : swapIdx i j k2 < swapIdx i j k1 := by omega
    exact h _ _ hlt2 hs1 heq.symm

theorem shuffleGo_props (n : Nat) :
    ∀ (steps : Nat) (l : List Int) (i : Nat) (rng : Rng),
      l.length = n → i + steps ≤ n →
      (shuffleGo n l i steps rng).1.length = l.length ∧
        (∀ x ∈ (shuffleGo n l i steps rng).1, x ∈ l) ∧
        (l.Nodup → (shuffleGo n l i steps rng).1.Nodup) := by
  intro steps
  induction steps with
  | zero => intro l i rng hlen hle; exact ⟨rfl, fun x hx => hx, fun h => h⟩
  | succ steps ih =>
    intro l i rng hlen hle
    have hi : i < l.length := by omega
    have hn : 0 < n := by omega
    have hj : (rng.intn n).1 < l.length := by
      rw [hlen]
      exact Nat.mod_lt _ hn
    simp only [shuffleGo]
    have hlen' : (listSwap l i (rng.intn n).1).length = n := by
      rw [listSwap_length]; exact hlen
    have hle' : (i + 1) + steps ≤ n := by omega
    obtain ⟨h1, h2, h3⟩ := ih (listSwap l i (rng.intn n).1) (i + 1)
      (rng.intn n).2 hlen' hle'
    refine ⟨by rw [h1, listSwap_length], ?_, ?_⟩
    · intro x hx
      exact listSwap_mem l i _ hi hj (h2 x hx)
    · intro hnd
      exact h3 (listSwap_nodup l i _ hi hj hnd)

/-! ## C5: precise dynamic port selection -/

theorem goUint_eq_toNat {x : Int} (h0 : 0 ≤ x) (h : x < (2 : Int) ^ 64) :
    goUint x = x.toNat := by
  unfold goUint
  have h2 : (2 : Int) ^ 64 = 18446744073709551616 := by norm_num
  rw [h2] at h ⊢
  omega

theorem goUint_ofNat {p : Nat} (h : p < MaxValidPort) :
    goUint (Int.ofNat p) = p := by
  unfold goUint
  simp only [MaxValidPort] at h
  have h2 : (2 : Int) ^ 64 = 18446744073709551616 := by norm_num
  have h3 : Int.ofNat p = (p : Int) := rfl
  rw [h2, h3]
  omega

theorem mem_usedSetFold (rs : List Port) :
    ∀ (b : Bitmap) (x : Nat),
      (x ∈ rs.foldl (fun s p => insert (goUint p.value) s) b) ↔
        x ∈ b ∨ ∃ p ∈ rs, goUint p.value = x := by
  induction rs with
  | nil => intro b x; simp
  | cons q rest ih =>
    intro b x
    simp only [List.foldl_cons, ih, Finset.mem_insert]
    constructor
    · rintro (⟨h | h⟩ | ⟨p, hp, hv⟩)
      · exact Or.inr ⟨q, List.mem_cons_self q rest, h.symm⟩
      · exact Or.inl h
      · exact Or.inr ⟨p, List.mem_cons_of_mem q hp, hv⟩
    · rintro (h | ⟨p, hp, hv⟩)
      · exact Or.inl (Or.inr h)
      · rcases List.mem_cons.mp hp with rfl | hp'
        · exact Or.inl (Or.inl hv.symm)
        · exact Or.inr ⟨p, hp', hv⟩

theorem mem_indexesInRange (b : Bitmap) (val : Bool) (lo hi : Nat) (v : Int) :
    v ∈ indexesInRange b val lo hi ↔
      ∃ p : Nat, v = Int.ofNat p ∧ lo ≤ p ∧ p ≤ hi ∧ p < MaxValidPort ∧
        decide (p ∈ b) = val := by
  unfold indexesInRange
  simp only [List.mem_map, List.mem_filter, List.mem_range'_1,
    Bool.and_eq_true, decide_eq_true_eq, beq_iff_eq]
  constructor
  · rintro ⟨p, ⟨⟨hlo, hp2⟩, hcap, hval⟩, rfl⟩
    exact ⟨p, rfl, hlo, by omega, hcap, hval⟩
  · rintro ⟨p, rfl, hlo, hhi, hcap, hval⟩
    exact ⟨p, ⟨⟨hlo, by omega⟩, hcap, hval⟩, rfl⟩

theorem indexesInRange_nodup (b : Bitmap) (val : Bool) (lo hi : Nat) :
    (indexesInRange b val lo hi).Nodup := by
  unfold indexesInRange
  refine List.Nodup.map ?_ (List.Nodup.filter _ (List.nodup_range' lo _))
  intro a b h
  exact Int.ofNat.inj h

theorem checkOpt_eq_mem_getD (used : Option Bitmap) {p : Nat}
    (h : p < MaxValidPort) :
    checkOpt used (Int.ofNat p) = decide (p ∈ used.getD ∅) := by
  cases used with
  | none => simp [checkOpt]
  | some b =>
    show decide (goUint (Int.ofNat p) ∈ b) = _
    rw [goUint_ofNat h]
    simp

theorem precise_available_eq (used : Option Bitmap) (reserved : List Port)
    (minP maxP : Int)
    (hres : ∀ p ∈ reserved, 0 ≤ p.value ∧ p.value < (MaxValidPort : Int))
    (hmin : 0 ≤ minP) (hle : minP ≤ maxP) (hmax : maxP < (MaxValidPort : Int)) :
    indexesInRange
        (reserved.foldl (fun s p => insert (goUint p.value) s) (used.getD ∅))
        false (goUint minP) (goUint maxP) =
      freePortsSpec used reserved minP maxP := by
  have hcap : ((MaxValidPort : Nat) : Int) < (2 : Int) ^ 64 := by
    norm_num [MaxValidPort]
  have hminB : minP < (2 : Int) ^ 64 := lt_trans (lt_of_le_of_lt hle hmax) hcap
  have hmaxB : maxP < (2 : Int) ^ 64 := lt_trans hmax hcap
  have hmax0 : 0 ≤ maxP := le_trans hmin hle
  rw [goUint_eq_toNat hmin hminB, goUint_eq_toNat hmax0 hmaxB]
  unfold indexesInRange freePortsSpec
  congr 1
  apply List.filter_congr
  intro p hp
  by_cases hcapp : p < MaxValidPort
  · have hgu : goUint (Int.ofNat p) = p := goUint_ofNat hcapp
    have hA := mem_usedSetFold reserved (used.getD ∅) p
    have hC : (∃ q ∈ reserved, goUint q.value = p) ↔
        Int.ofNat p ∈ reserved.map (·.value) := by
      constructor
      · rintro ⟨q, hq, hgq⟩
        have hval := hres q hq
        have hq1 : goUint q.value = q.value.toNat :=
          goUint_eq_toNat hval.1 (lt_trans hval.2 hcap)
        have hqe : q.value = Int.ofNat p := by
          rw [hq1] at hgq
          have h3 : Int.ofNat p = (p : Int) := rfl
          rw [h3]
          omega
        exact List.mem_map.mpr ⟨q, hq, hqe⟩
      · intro hmem
        obtain ⟨q, hq, hqe⟩ := List.mem_map.mp hmem
        refine ⟨q, hq, ?_⟩
        rw [hqe]
        exact hgu
    rw [Bool.eq_iff_iff]
    simp only [Bool.and_eq_true, beq_iff_eq, decide_eq_true_eq,
      Bool.not_eq_true', decide_eq_false_iff_not,
      checkOpt_eq_mem_getD used hcapp]
    constructor
    · rintro ⟨h1, h2⟩
      rw [hA] at h2
      push_neg at h2
      refine ⟨⟨h1, h2.1⟩, fun hc => ?_⟩
      obtain ⟨q, hq, hgq⟩ := hC.mpr hc
      exact h2.2 q hq hgq
    · rintro ⟨⟨h1, h2⟩, h3⟩
      refine ⟨h1, ?_⟩
      rw [hA]
      push_neg
      exact ⟨h2, fun q hq hgq => h3 (hC.mp ⟨q, hq, hgq⟩)⟩
  · simp [hcapp]

theorem mem_freePortsSpec (used : Option Bitmap) (reserved : List Port)
    (minP maxP : Int) (v : Int) :
    v ∈ freePortsSpec used reserved minP maxP ↔
      ∃ p : Nat, v = Int.ofNat p ∧ minP.toNat ≤ p ∧ p ≤ maxP.toNat ∧
        p < MaxValidPort ∧ checkOpt used (Int.ofNat p) = false ∧
        Int.ofNat p ∉ reserved.map (·.value) := by
  unfold freePortsSpec
  simp only [List.mem_map, List.mem_filter, List.mem_range'_1,
    Bool.and_eq_true, decide_eq_true_eq, Bool.not_eq_true',
    decide_eq_false_iff_not]
  constructor
  · rintro ⟨p, ⟨⟨hlo, hp2⟩, ⟨hcap, hco⟩, hnr⟩, rfl⟩
    exact ⟨p, rfl, hlo, by omega, hcap, hco, hnr⟩
  · rintro ⟨p, rfl, hlo, hhi, hcap, hco, hnr⟩
    exact ⟨p, ⟨⟨hlo, by omega⟩, ⟨hcap, hco⟩, hnr⟩, rfl⟩

theorem freePortsSpec_nodup (used : Option Bitmap) (reserved : List Port)
    (minP maxP : Int) : (freePortsSpec used reserved minP maxP).Nodup := by
  unfold freePortsSpec
  refine List.Nodup.map ?_ (List.Nodup.filter _ (List.nodup_range' _ _))
  intro a b h
  exact Int.ofNat.inj h

/-- C5: `getDynamicPortsPrecise` fails with "dynamic port selection
failed" iff the number of ports in the dynamic range that are neither set
in `used` nor among the reserved values is smaller than `count`; otherwise
it returns exactly `count` distinct ports, each in the dynamic range, none
set in `used`, none among the reserved values. -/
theorem c5_precise_selection (used : Option Bitmap) (minP maxP : Int)
    (reserved : List Port) (count : Nat) (rng : Rng)
    (hres : ∀ p ∈ reserved, 0 ≤ p.value ∧ p.value < (MaxValidPort : Int))
    (hmin : 0 ≤ minP) (hle : minP ≤ maxP) (hmax : maxP < (MaxValidPort : Int)) :
    (((getDynamicPortsPrecise used minP maxP reserved count rng).1 =
        Except.error "dynamic port selection failed") ↔
      (freePortsSpec used reserved minP maxP).length < count) ∧
    ∀ ports, (getDynamicPortsPrecise used minP maxP reserved count rng).1 =
        Except.ok ports →
      ports.length = count ∧ ports.Nodup ∧
      ∀ v ∈ ports, minP ≤ v ∧ v ≤ maxP ∧ checkOpt used v = false ∧
        v ∉ reserved.map (·.value) := by
  have hAeq := precise_available_eq used reserved minP maxP hres hmin hle hmax
  have hmax0 : 0 ≤ maxP := le_trans hmin hle
  simp only [getDynamicPortsPrecise, hAeq]
  by_cases hlt : (freePortsSpec used reserved minP maxP).length < count
  · rw [if_pos hlt]
    refine ⟨⟨fun _ => hlt, fun _ => rfl⟩, ?_⟩
    intro ports hp
    exact absurd hp (by simp)
  · rw [if_neg hlt]
    have hcnt : count ≤ (freePortsSpec used reserved minP maxP).length :=
      Nat.le_of_not_lt hlt
    obtain ⟨hlen, hmemA, hnodupf⟩ :=
      shuffleGo_props (freePortsSpec used reserved minP maxP).length count
        (freePortsSpec used reserved minP maxP) 0 rng rfl (by omega)
    rcases hsh : shuffleGo (freePortsSpec used reserved minP maxP).length
        (freePortsSpec used reserved minP maxP) 0 count rng with ⟨l, rng'⟩
    rw [hsh] at hlen hmemA hnodupf
    refine ⟨⟨fun he => ?_, fun hc => absurd hc hlt⟩, ?_⟩
    · simp only [hsh] at he
      exact Except.noConfusion he
    · intro ports hp
      simp only [hsh] at hp
      have hpe : l.take count = ports := Except.ok.inj hp
      subst hpe
      refine ⟨?_, ?_, ?_⟩
      · rw [List.length_take]
        simp only at hlen
        omega
      · exact (List.take_sublist _ _).nodup
          (hnodupf (freePortsSpec_nodup used reserved minP maxP))
      · intro v hv
        have hvA : v ∈ freePortsSpec used reserved minP maxP :=
          hmemA v ((List.take_sublist _ _).subset hv)
        obtain ⟨p, rfl, hplo, hphi, hpcap, hcheck, hnres⟩ :=
          (mem_freePortsSpec used reserved minP maxP _).mp hvA
        have h3 : Int.ofNat p = (p : Int) := rfl
        refine ⟨?_, ?_, hcheck, hnres⟩
        · rw [h3]; omega
        · rw [h3]; omega

/-- Witness for C5 at a concrete input (spec scenario 3). -/
theorem c5_precise_selection_witness :
    ((0 : Int) ≤ 20000 ∧ (20000 : Int) ≤ 20002) ∧
    (((getDynamicPortsPrecise (some {20000}) 20000 20002
        [{ label := "r", value := 20001, toVal := 0, hostNetwork := "" }] 1
        ⟨fun _ => 0, 0⟩).1 = Except.error "dynamic port selection failed") ↔
      (freePortsSpec (some {20000})
        [{ label := "r", value := 20001, toVal := 0, hostNetwork := "" }]
        20000 20002).length < 1) :=
  ⟨⟨by norm_num, by norm_num⟩,
    (c5_precise_selection (some {20000}) 20000 20002
      [{ label := "r", value := 20001, toVal := 0, hostNetwork := "" }] 1
      ⟨fun _ => 0, 0⟩ (by decide) (by decide) (by decide) (by decide)).1⟩

/-! ## Stochastic selector bounds -/

theorem stochasticPick_ok_bounds (nodeUsed : Option Bitmap) (minP maxP : Int)
    (reserved dynamic : List Int) (hlt : minP < maxP) :
    ∀ (fuel : Nat) (rng : Rng) (v : Int) (rng' : Rng),
      stochasticPick nodeUsed minP maxP reserved dynamic fuel rng =
        (.ok v, rng') → minP ≤ v ∧ v < maxP := by
  intro fuel
  induction fuel with
  | zero =>
    intro rng v rng' h
    simp only [stochasticPick] at h
    exact Except.noConfusion (congrArg Prod.fst h)
  | succ fuel ih =>
    intro rng v rng' h
    simp only [stochasticPick] at h
    by_cases h1 : checkOpt nodeUsed (minP + Int.ofNat
        (rng.intn (maxP - minP).toNat).1) = true
    · rw [if_pos h1] at h
      exact ih _ v rng' h
    · rw [if_neg h1] at h
      by_cases h2 : (isPortReserved reserved (minP + Int.ofNat
          (rng.intn (maxP - minP).toNat).1) ||
          isPortReserved dynamic (minP + Int.ofNat
            (rng.intn (maxP - minP).toNat).1)) = true
      · rw [if_pos h2] at h
        exact ih _ v rng' h
      · rw [if_neg h2] at h
        have hv : v = minP + Int.ofNat (rng.intn (maxP - minP).toNat).1 :=
          (Except.ok.inj (congrArg Prod.fst h)).symm
        have hn : 0 < (maxP - minP).toNat := by omega
        have hmod : (rng.intn (maxP - minP).toNat).1 < (maxP - minP).toNat := by
          simp only [Rng.intn]
          exact Nat.mod_lt _ hn
        have h3 : Int.ofNat (rng.intn (maxP - minP).toNat).1 =
            ((rng.intn (maxP - minP).toNat).1 : Int) := rfl
        rw [hv, h3]
        omega

theorem stochasticLoop_ok_spec (nodeUsed : Option Bitmap) (minP maxP : Int)
    (reserved : List Int) (hlt : minP < maxP) :
    ∀ (count : Nat) (dynamic : List Int) (rng : Rng) (l : List Int)
      (rng' : Rng),
      stochasticLoop nodeUsed minP maxP reserved dynamic count rng =
        (.ok l, rng') →
      l.length = dynamic.length + count ∧
        ∀ v ∈ l, v ∈ dynamic ∨ (minP ≤ v ∧ v < maxP) := by
  intro count
  induction count with
  | zero =>
    intro dynamic rng l rng' h
    have hl : l = dynamic := (Except.ok.inj (congrArg Prod.fst h)).symm
    subst hl
    exact ⟨rfl, fun v hv => Or.inl hv⟩
  | succ count ih =>
    intro dynamic rng l rng' h
    simp only [stochasticLoop] at h
    rcases hp : stochasticPick nodeUsed minP maxP reserved dynamic
        maxRandPortAttempts rng with ⟨r1, rng1⟩
    rw [hp] at h
    cases r1 with
    | error e => exact absurd (congrArg Prod.fst h) (by simp)
    | ok p =>
      obtain ⟨hlen, hmem⟩ := ih (dynamic ++ [p]) rng1 l rng' h
      have hpb := stochasticPick_ok_bounds nodeUsed minP maxP reserved dynamic
        hlt maxRandPortAttempts rng p rng1 hp
      refine ⟨by simp at hlen; omega, ?_⟩
      intro v hv
      rcases hmem v hv with hd | hb
      · rcases List.mem_append.mp hd with hd1 | hd2
        · exact Or.inl hd1
        · have : v = p := List.mem_singleton.mp hd2
          exact Or.inr (this ▸ hpb)
      · exact Or.inr hb

theorem stochastic_ok_bounds (nodeUsed : Option Bitmap) (minP maxP : Int)
    (reservedPorts : List Port) (count : Nat) (rng : Rng) (l : List Int)
    (rng' : Rng) (hlt : minP < maxP)
    (h : getDynamicPortsStochastic nodeUsed minP maxP reservedPorts count rng =
      (.ok l, rng')) :
    l.length = count ∧ ∀ v ∈ l, minP ≤ v ∧ v < maxP := by
  unfold getDynamicPortsStochastic at h
  obtain ⟨hlen, hmem⟩ := stochasticLoop_ok_spec nodeUsed minP maxP
    (reservedPorts.map (·.value)) hlt count [] rng l rng' h
  refine ⟨by simpa using hlen, fun v hv => ?_⟩
  rcases hmem v hv with hc | hb
  · exact absurd hc (List.not_mem_nil v)
  · exact hb

/-! ## Bounds for getDynamicPortsPrecise (helper, also used by C2) -/

theorem precise_ok_len_bounds (used : Option Bitmap) (minP maxP : Int)
    (reserved : List Port) (count : Nat) (rng : Rng) (ports : List Int)
    (rng' : Rng)
    (hmin : 0 ≤ minP) (hltm : minP < maxP) (hmax : maxP < (MaxValidPort : Int))
    (h : getDynamicPortsPrecise used minP maxP reserved count rng =
      (.ok ports, rng')) :
    ports.length = count ∧ ∀ v ∈ ports, minP ≤ v ∧ v ≤ maxP := by
  simp only [getDynamicPortsPrecise] at h
  by_cases hlt : (indexesInRange
      (reserved.foldl (fun s p => insert (goUint p.value) s) (used.getD ∅))
      false (goUint minP) (goUint maxP)).length < count
  · rw [if_pos hlt] at h
    exact absurd (congrArg Prod.fst h) (by simp)
  · rw [if_neg hlt] at h
    obtain ⟨hlen, hmemA, _⟩ :=
      shuffleGo_props (indexesInRange
          (reserved.foldl (fun s p => insert (goUint p.value) s) (used.getD ∅))
          false (goUint minP) (goUint maxP)).length count _ 0 rng rfl
        (by omega)
    rcases hsh : shuffleGo (indexesInRange
        (reserved.foldl (fun s p => insert (goUint p.value) s) (used.getD ∅))
        false (goUint minP) (goUint maxP)).length
        (indexesInRange
          (reserved.foldl (fun s p => insert (goUint p.value) s) (used.getD ∅))
          false (goUint minP) (goUint maxP)) 0 count rng with ⟨l, rng2⟩
    simp only [hsh] at hlen hmemA h
    have hpe : l.take count = ports := Except.ok.inj (congrArg Prod.fst h)
    subst hpe
    have hcap2 : ((MaxValidPort : Nat) : Int) < (2 : Int) ^ 64 := by
      norm_num [MaxValidPort]
    have hminB : minP < (2 : Int) ^ 64 := lt_trans (lt_trans hltm hmax) hcap2
    refine ⟨by rw [List.length_take]; omega, ?_⟩
    intro v hv
    have hvA := hmemA v ((List.take_sublist _ _).subset hv)
    obtain ⟨p, rfl, hplo, hphi, hpcap, _⟩ :=
      (mem_indexesInRange _ _ _ _ _).mp hvA
    rw [goUint_eq_toNat hmin hminB] at hplo
    have hmax0 : 0 ≤ maxP := le_of_lt (lt_of_le_of_lt hmin hltm)
    have hmaxB : maxP < (2 : Int) ^ 64 := lt_trans hmax hcap2
    rw [goUint_eq_toNat hmax0 hmaxB] at hphi
    have h3 : Int.ofNat p = (p : Int) := rfl
    rw [h3]
    constructor <;> omega

/-! ## Field preservation through the offer engine -/

theorem getUsedPortsFor_minmax (idx : NetworkIndex) (ip : String) :
    (getUsedPortsFor idx ip).2.minDynamicPort = idx.minDynamicPort ∧
      (getUsedPortsFor idx ip).2.maxDynamicPort = idx.maxDynamicPort := by
  unfold getUsedPortsFor
  cases alLookup idx.usedPorts ip <;> simp

theorem assignReservedInner_minmax (idx : NetworkIndex) (port : Port)
    (addrs : List NodeNetworkAddress) :
    (assignReservedInner idx port addrs).1.minDynamicPort =
        idx.minDynamicPort ∧
      (assignReservedInner idx port addrs).1.maxDynamicPort =
        idx.maxDynamicPort := by
  cases addrs with
  | nil => exact ⟨rfl, rfl⟩
  | cons addr rest =>
    have h := getUsedPortsFor_minmax idx addr.address
    simp only [assignReservedInner]
    rcases hgu : getUsedPortsFor idx addr.address with ⟨used, idx'⟩
    rw [hgu] at h
    split_ifs <;> simpa using h

theorem assignDynamicInner_minmax (addrs : List NodeNetworkAddress) :
    ∀ (idx : NetworkIndex) (port : Port) (resPorts : List Port)
      (addrErr : Option String) (rng : Rng),
      (assignDynamicInner idx port resPorts addrErr addrs rng).1.minDynamicPort =
          idx.minDynamicPort ∧
        (assignDynamicInner idx port resPorts addrErr addrs rng).1.maxDynamicPort =
          idx.maxDynamicPort := by
  induction addrs with
  | nil => intro idx port resPorts addrErr rng; exact ⟨rfl, rfl⟩
  | cons addr rest ih =>
    intro idx port resPorts addrErr rng
    rcases hgu : getUsedPortsFor idx addr.address with ⟨used, idx'⟩
    have h : idx'.minDynamicPort = idx.minDynamicPort ∧
        idx'.maxDynamicPort = idx.maxDynamicPort := by
      have h0 := getUsedPortsFor_minmax idx addr.address
      rw [hgu] at h0
      exact h0
    simp only [assignDynamicInner, hgu]
    rcases hst : getDynamicPortsStochastic (some used) idx'.minDynamicPort
        idx'.maxDynamicPort resPorts 1 rng with ⟨r1, rng1⟩
    cases r1 with
    | ok dynPorts => simpa using h
    | error e1 =>
      rcases hpr : getDynamicPortsPrecise (some used) idx'.minDynamicPort
          idx'.maxDynamicPort resPorts 1 rng1 with ⟨r2, rng2⟩
      cases r2 with
      | ok dynPorts =>
        simp only [hpr]
        simpa using h
      | error e2 =>
        simp only [hpr, ih]
        exact h

theorem stochasticLoop_ok_length (nodeUsed : Option Bitmap) (minP maxP : Int)
    (reserved : List Int) :
    ∀ (count : Nat) (dynamic : List Int) (rng : Rng) (l : List Int)
      (rng' : Rng),
      stochasticLoop nodeUsed minP maxP reserved dynamic count rng =
        (.ok l, rng') → l.length = dynamic.length + count := by
  intro count
  induction count with
  | zero =>
    intro dynamic rng l rng' h
    have hl : l = dynamic := (Except.ok.inj (congrArg Prod.fst h)).symm
    subst hl
    simp
  | succ count ih =>
    intro dynamic rng l rng' h
    simp only [stochasticLoop] at h
    rcases hp : stochasticPick nodeUsed minP maxP reserved dynamic
        maxRandPortAttempts rng with ⟨r1, rng1⟩
    rw [hp] at h
    cases r1 with
    | error e => exact absurd (congrArg Prod.fst h) (by simp)
    | ok p =>
      have := ih (dynamic ++ [p]) rng1 l rng' h
      simp at this
      omega

/-- The mapping found by the dynamic address loop: its label comes from the
ask port, the `to == -1` rewrite is applied, and (for sane bounds) its
value lies in `[minP, maxP]`. -/
theorem assignDynamicInner_found (addrs : List NodeNetworkAddress)
    (minP maxP : Int) :
    ∀ (idx : NetworkIndex) (port : Port) (resPorts : List Port)
      (addrErr : Option String) (rng : Rng) (idx' : NetworkIndex) (rng' : Rng)
      (m : AllocatedPortMapping) (eo : Option String),
      idx.minDynamicPort = minP → idx.maxDynamicPort = maxP →
      assignDynamicInner idx port resPorts addrErr addrs rng =
        (idx', rng', some m, eo) →
      m.label = port.label ∧
        (port.toVal = -1 → m.toVal = m.value) ∧
        (port.toVal ≠ -1 → m.toVal = port.toVal) ∧
        (0 ≤ minP → minP < maxP → maxP < (MaxValidPort : Int) →
          minP ≤ m.value ∧ m.value ≤ maxP) := by
  induction addrs with
  | nil =>
    intro idx port resPorts addrErr rng idx' rng' m eo hmi hma h
    simp only [assignDynamicInner] at h
    have h2 := congrArg (fun q => q.2.2.1) h
    simp at h2
  | cons addr rest ih =>
    intro idx port resPorts addrErr rng idx' rng' m eo hmi hma h
    rcases hgu : getUsedPortsFor idx addr.address with ⟨used, idxg⟩
    have hfld : idxg.minDynamicPort = minP ∧ idxg.maxDynamicPort = maxP := by
      have h0 := getUsedPortsFor_minmax idx addr.address
      rw [hgu] at h0
      exact ⟨h0.1.trans hmi, h0.2.trans hma⟩
    simp only [assignDynamicInner, hgu] at h
    rcases hst : getDynamicPortsStochastic (some used) idxg.minDynamicPort
        idxg.maxDynamicPort resPorts 1 rng with ⟨r1, rng1⟩
    rw [hst] at h
    cases r1 with
    | ok dynPorts =>
      simp only at h
      have hm := congrArg (fun q => q.2.2.1) h
      simp only [Option.some.injEq] at hm
      by_cases htv : port.toVal = -1
      · rw [if_pos htv] at hm
        rw [← hm]
        refine ⟨rfl, fun _ => rfl, fun hne => absurd htv hne, ?_⟩
        intro h0 hl hc
        have hl' : idxg.minDynamicPort < idxg.maxDynamicPort := by
          rw [hfld.1, hfld.2]; exact hl
        obtain ⟨hlen, hb⟩ := stochastic_ok_bounds (some used)
          idxg.minDynamicPort idxg.maxDynamicPort resPorts 1 rng dynPorts rng1
          hl' hst
        rw [hfld.1, hfld.2] at hb
        have hmem : dynPorts.getD 0 0 ∈ dynPorts := by
          cases dynPorts with
          | nil => simp at hlen
          | cons a t => simp [List.getD]
        have := hb _ hmem
        simp only
        exact ⟨this.1, le_of_lt this.2⟩
      · rw [if_neg htv] at hm
        rw [← hm]
        refine ⟨rfl, fun hc => absurd hc htv, fun _ => rfl, ?_⟩
        intro h0 hl hc
        have hl' : idxg.minDynamicPort < idxg.maxDynamicPort := by
          rw [hfld.1, hfld.2]; exact hl
        obtain ⟨hlen, hb⟩ := stochastic_ok_bounds (some used)
          idxg.minDynamicPort idxg.maxDynamicPort resPorts 1 rng dynPorts rng1
          hl' hst
        rw [hfld.1, hfld.2] at hb
        have hmem : dynPorts.getD 0 0 ∈ dynPorts := by
          cases dynPorts with
          | nil => simp at hlen
          | cons a t => simp [List.getD]
        have := hb _ hmem
        exact ⟨this.1, le_of_lt this.2⟩
    | error e1 =>
      simp only at h
      rcases hpr : getDynamicPortsPrecise (some used) idxg.minDynamicPort
          idxg.maxDynamicPort resPorts 1 rng1 with ⟨r2, rng2⟩
      rw [hpr] at h
      cases r2 with
      | ok dynPorts =>
        simp only at h
        have hm := congrArg (fun q => q.2.2.1) h
        simp only [Option.some.injEq] at hm
        have hbounds : (0 ≤ minP → minP < maxP → maxP < (MaxValidPort : Int) →
            minP ≤ dynPorts.getD 0 0 ∧ dynPorts.getD 0 0 ≤ maxP) := by
          intro h0 hl hc
          obtain ⟨hlen, hb⟩ := precise_ok_len_bounds (some used)
            idxg.minDynamicPort idxg.maxDynamicPort resPorts 1 rng1 dynPorts
            rng2 (by rw [hfld.1]; exact h0)
            (by rw [hfld.1, hfld.2]; exact hl)
            (by rw [hfld.2]; exact hc) hpr
          rw [hfld.1, hfld.2] at hb
          have hmem : dynPorts.getD 0 0 ∈ dynPorts := by
            cases dynPorts with
            | nil => simp at hlen
            | cons a t => simp [List.getD]
          exact hb _ hmem
        by_cases htv : port.toVal = -1
        · rw [if_pos htv] at hm
          rw [← hm]
          exact ⟨rfl, fun _ => rfl, fun hne => absurd htv hne, hbounds⟩
        · rw [if_neg htv] at hm
          rw [← hm]
          exact ⟨rfl, fun hc => absurd hc htv, fun _ => rfl, hbounds⟩
      | error e2 =>
        exact ih idxg port resPorts (some e2) rng2 idx' rng' m eo hfld.1
          hfld.2 h

/-! ## Offer structure of goReserved / goDynamic -/

theorem forall₂_getElem? {α β : Type} {R : α → β → Prop} :
    ∀ {l1 : List α} {l2 : List β}, List.Forall₂ R l1 l2 →
      ∀ (i : Nat) (a : α) (b : β), l1[i]? = some a → l2[i]? = some b → R a b := by
  intro l1 l2 h
  induction h with
  | nil => intro i a b h1 h2; simp at h1
  | @cons x y l1' l2' hR hrest ih =>
    intro i a b h1 h2
    cases i with
    | zero =>
      simp only [List.getElem?_cons_zero, Option.some.injEq] at h1 h2
      rw [← h1, ← h2]
      exact hR
    | succ i =>
      simp only [List.getElem?_cons_succ] at h1 h2
      exact ih i a b h1 h2

theorem forall₂_mem_right {α β : Type} {R : α → β → Prop} :
    ∀ {l1 : List α} {l2 : List β}, List.Forall₂ R l1 l2 →
      ∀ b ∈ l2, ∃ a ∈ l1, R a b := by
  intro l1 l2 h
  induction h with
  | nil => intro b hb; simp at hb
  | @cons x y l1' l2' hR hrest ih =>
    intro b hb
    rcases List.mem_cons.mp hb with rfl | hb'
    · exact ⟨x, List.mem_cons_self x l1', hR⟩
    · obtain ⟨a, ha, hab⟩ := ih b hb'
      exact ⟨a, List.mem_cons_of_mem x ha, hab⟩

theorem assignReservedInner_found_spec (idx : NetworkIndex) (port : Port)
    (addrs : List NodeNetworkAddress) (idx2 : NetworkIndex)
    (m : AllocatedPortMapping)
    (h : assignReservedInner idx port addrs = (idx2, .found m)) :
    m.value = port.value ∧ m.toVal = port.toVal ∧ m.label = port.label := by
  cases addrs with
  | nil =>
    simp only [assignReservedInner] at h
    exact absurd (congrArg Prod.snd h) (by simp)
  | cons addr rest =>
    rcases hgu : getUsedPortsFor idx addr.address with ⟨used, idxg⟩
    simp only [assignReservedInner, hgu] at h
    split_ifs at h with h1 h2
    · exact absurd (congrArg Prod.snd h) (by simp)
    · exact absurd (congrArg Prod.snd h) (by simp)
    · have hm := congrArg Prod.snd h
      simp only at hm
      have := ResOutcome.found.inj hm
      rw [← this]
      exact ⟨rfl, rfl, rfl⟩

theorem goReserved_ok_spec (ports : List Port) :
    ∀ (idx : NetworkIndex) (ri : List (String × List Port))
      (offer : AllocatedPorts) (idx1 : NetworkIndex)
      (res : Except String (List (String × List Port) × AllocatedPorts)),
      goReserved idx ri offer ports = (idx1, res) →
      (idx1.minDynamicPort = idx.minDynamicPort ∧
        idx1.maxDynamicPort = idx.maxDynamicPort) ∧
      ∀ ri1 offer1, res = .ok (ri1, offer1) →
        ∃ part, offer1 = offer ++ part ∧
          List.Forall₂ (fun (p : Port) (m : AllocatedPortMapping) =>
            m.value = p.value ∧ m.toVal = p.toVal ∧ m.label = p.label)
            ports part := by
  induction ports with
  | nil =>
    intro idx ri offer idx1 res h
    simp only [goReserved] at h
    obtain ⟨h1, h2⟩ := Prod.mk.inj h
    refine ⟨by rw [← h1]; exact ⟨rfl, rfl⟩, ?_⟩
    intro ri1 offer1 hok
    rw [← h2] at hok
    obtain ⟨_, h4⟩ := Prod.mk.inj (Except.ok.inj hok)
    exact ⟨[], by rw [← h4]; simp, List.Forall₂.nil⟩
  | cons port rest ih =>
    intro idx ri offer idx1 res h
    simp only [goReserved] at h
    rcases hr : assignReservedInner idx port
        ((alLookup idx.hostNetworks port.hostNetwork).getD []) with ⟨idxr, out⟩
    rw [hr] at h
    have hmm : idxr.minDynamicPort = idx.minDynamicPort ∧
        idxr.maxDynamicPort = idx.maxDynamicPort := by
      have h0 := assignReservedInner_minmax idx port
        ((alLookup idx.hostNetworks port.hostNetwork).getD [])
      rw [hr] at h0
      exact h0
    cases out with
    | hardErr e =>
      simp only at h
      obtain ⟨h1, h2⟩ := Prod.mk.inj h
      refine ⟨by rw [← h1]; exact hmm, ?_⟩
      intro ri1 offer1 hok
      rw [← h2] at hok
      exact absurd hok (by simp)
    | found m =>
      simp only at h
      obtain ⟨hfld, hshape⟩ := ih idxr _ _ idx1 res h
      refine ⟨⟨hfld.1.trans hmm.1, hfld.2.trans hmm.2⟩, ?_⟩
      intro ri1 offer1 hok
      obtain ⟨part, hoff, hfa⟩ := hshape ri1 offer1 hok
      refine ⟨m :: part, by rw [hoff]; simp, ?_⟩
      exact List.Forall₂.cons
        (assignReservedInner_found_spec idx port _ idxr m hr) hfa
    | exhausted =>
      simp only at h
      obtain ⟨h1, h2⟩ := Prod.mk.inj h
      refine ⟨by rw [← h1]; exact hmm, ?_⟩
      intro ri1 offer1 hok
      rw [← h2] at hok
      exact absurd hok (by simp)

theorem goDynamic_ok_spec (minP maxP : Int) (ports : List Port) :
    ∀ (idx : NetworkIndex) (ri : List (String × List Port))
      (offer : AllocatedPorts) (rng : Rng) (idx1 : NetworkIndex) (rng1 : Rng)
      (res : Except String AllocatedPorts),
      idx.minDynamicPort = minP → idx.maxDynamicPort = maxP →
      goDynamic idx ri offer ports rng = (idx1, rng1, res) →
      ∀ offer1, res = .ok offer1 →
        ∃ part, offer1 = offer ++ part ∧
          List.Forall₂ (fun (p : Port) (m : AllocatedPortMapping) =>
            m.label = p.label ∧ (p.toVal = -1 → m.toVal = m.value) ∧
            (p.toVal ≠ -1 → m.toVal = p.toVal) ∧
            (0 ≤ minP → minP < maxP → maxP < (MaxValidPort : Int) →
              minP ≤ m.value ∧ m.value ≤ maxP)) ports part := by
  induction ports with
  | nil =>
    intro idx ri offer rng idx1 rng1 res hmi hma h offer1 hok
    simp only [goDynamic] at h
    have h2 := congrArg (fun q => q.2.2) h
    simp only at h2
    rw [← h2] at hok
    have h3 := Except.ok.inj hok
    exact ⟨[], by rw [← h3]; simp, List.Forall₂.nil⟩
  | cons port rest ih =>
    intro idx ri offer rng idx1 rng1 res hmi hma h offer1 hok
    simp only [goDynamic] at h
    rcases hd : assignDynamicInner idx port ((alLookup ri port.hostNetwork).getD [])
        none ((alLookup idx.hostNetworks port.hostNetwork).getD []) rng
      with ⟨idxd, rngd, mo, eo⟩
    rw [hd] at h
    have hmm : idxd.minDynamicPort = minP ∧ idxd.maxDynamicPort = maxP := by
      have h0 := assignDynamicInner_minmax
        ((alLookup idx.hostNetworks port.hostNetwork).getD []) idx port
        ((alLookup ri port.hostNetwork).getD []) none rng
      rw [hd] at h0
      exact ⟨h0.1.trans hmi, h0.2.trans hma⟩
    cases mo with
    | some m =>
      simp only at h
      obtain ⟨part, hoff, hfa⟩ := ih idxd ri (offer ++ [m]) rngd idx1 rng1 res
        hmm.1 hmm.2 h offer1 hok
      refine ⟨m :: part, by rw [hoff]; simp, ?_⟩
      refine List.Forall₂.cons ?_ hfa
      have hfound := assignDynamicInner_found
        ((alLookup idx.hostNetworks port.hostNetwork).getD []) minP maxP idx
        port ((alLookup ri port.hostNetwork).getD []) none rng idxd rngd m eo
        hmi hma hd
      exact hfound
    | none =>
      cases eo with
      | some e =>
        simp only at h
        have h2 := congrArg (fun q => q.2.2) h
        simp only at h2
        rw [← h2] at hok
        exact absurd hok (by simp)
      | none =>
        simp only at h
        have h2 := congrArg (fun q => q.2.2) h
        simp only at h2
        rw [← h2] at hok
        exact absurd hok (by simp)

/-! ## C2: dynamic port value bounds -/

/-- C2 counterexample: with `min_dynamic_port = 20000`,
`max_dynamic_port = 20001` and port 20000 in use, the stochastic path
exhausts its attempts and the precise path (whose range is inclusive)
emits value 20001 = `max_dynamic_port`, refuting the claimed strict
upper bound. -/
theorem c2_counterexample :
    ((assignPorts
        { hostNetworks := [("default",
            [{ aliasName := "default", address := "10.0.0.1" }])],
          usedPorts := [("10.0.0.1", {20000})],
          minDynamicPort := 20000, maxDynamicPort := 20001 }
        { dynamicPorts := [{ label := "x", value := 0, toVal := 5, hostNetwork := "default" }] }
        ⟨fun _ => 0, 0⟩).2.2 =
      Except.ok [{ label := "x", value := 20001, toVal := 5, hostIP := "10.0.0.1" }]) ∧
    ¬((20001 : Int) < (20001 : Int)) :=
  ⟨by decide, by decide⟩

/-- C2 (amended): whenever `AssignPorts` returns an offer (with
`0 ≤ min < max < MaxValidPort`), every mapping emitted for an entry of
the ask's `DynamicPorts` has `min_dynamic_port ≤ value ≤ max_dynamic_port`
(the upper bound is inclusive: the stochastic selector stays below `max`
but the precise selector may return `max` itself). -/
theorem c2_amended (idx : NetworkIndex) (ask : NetworkResource) (rng : Rng)
    (offer : AllocatedPorts)
    (hmin : 0 ≤ idx.minDynamicPort)
    (hlt : idx.minDynamicPort < idx.maxDynamicPort)
    (hmax : idx.maxDynamicPort < (MaxValidPort : Int))
    (hok : (assignPorts idx ask rng).2.2 = Except.ok offer) :
    ∀ m ∈ offer.drop ask.reservedPorts.length,
      idx.minDynamicPort ≤ m.value ∧ m.value ≤ idx.maxDynamicPort := by
  unfold assignPorts at hok
  rcases hr : goReserved idx [] [] ask.reservedPorts with ⟨idx1, res1⟩
  rw [hr] at hok
  cases res1 with
  | error e => simp at hok
  | ok pr =>
    obtain ⟨ri, offer0⟩ := pr
    simp only at hok
    obtain ⟨hfld, hshape⟩ := goReserved_ok_spec ask.reservedPorts idx [] []
      idx1 _ hr
    obtain ⟨part0, hoff0, hfa0⟩ := hshape ri offer0 rfl
    rcases hd : goDynamic idx1 ri offer0 ask.dynamicPorts rng
      with ⟨idx2, rng2, res2⟩
    rw [hd] at hok
    simp only at hok
    obtain ⟨part, hoff, hfa⟩ := goDynamic_ok_spec idx.minDynamicPort
      idx.maxDynamicPort ask.dynamicPorts idx1 ri offer0 rng idx2 rng2 res2
      hfld.1 hfld.2 hd offer hok
    have hlen0 : offer0.length = ask.reservedPorts.length := by
      rw [hoff0]
      simp [hfa0.length_eq]
    intro m hm
    rw [hoff, ← hlen0, List.drop_left] at hm
    obtain ⟨p, _, hR⟩ := forall₂_mem_right hfa m hm
    exact hR.2.2.2 hmin hlt hmax

/-- Witness for C2 (amended) at the counterexample input: the emitted
value 20001 satisfies the inclusive bounds. -/
theorem c2_amended_witness :
    (0 : Int) ≤ 20000 ∧ ((20000 : Int) ≤ 20001 ∧ (20001 : Int) ≤ 20001) :=
  ⟨by decide,
    c2_amended
      { hostNetworks := [("default",
          [{ aliasName := "default", address := "10.0.0.1" }])],
        usedPorts := [("10.0.0.1", {20000})],
        minDynamicPort := 20000, maxDynamicPort := 20001 }
      { dynamicPorts := [{ label := "x", value := 0, toVal := 5, hostNetwork := "default" }] }
      ⟨fun _ => 0, 0⟩
      [{ label := "x", value := 20001, toVal := 5, hostIP := "10.0.0.1" }]
      (by decide) (by decide) (by decide) (by decide)
      { label := "x", value := 20001, toVal := 5, hostIP := "10.0.0.1" }
      (by decide)⟩

/-! ## C3: the to == -1 rewrite -/

/-- C3 counterexample: a `ReservedPorts` entry with `to == -1` is emitted
with `to` still `-1` while `value` is 80 — the reserved branch of
`AssignPorts` never applies the `to == -1` → `to = value` rewrite. -/
theorem c3_counterexample :
    ((assignPorts
        { hostNetworks := [("default",
            [{ aliasName := "default", address := "10.0.0.1" }])] }
        { reservedPorts := [{ label := "http", value := 80, toVal := -1, hostNetwork := "default" }] }
        ⟨fun _ => 0, 0⟩).2.2 =
      Except.ok [{ label := "http", value := 80, toVal := -1, hostIP := "10.0.0.1" }]) ∧
    ¬((-1 : Int) = (80 : Int)) :=
  ⟨by decide, by decide⟩

theorem buildDynPorts_getElem? (l : List Port) (d : List Int) (i : Nat)
    (p q : Port) (h1 : l[i]? = some p)
    (h2 : (buildDynPorts l d)[i]? = some q) :
    p.toVal = -1 → q.toVal = q.value := by
  unfold buildDynPorts at h2
  rw [List.getElem?_map] at h2
  cases hz : (l.zip d)[i]? with
  | none => rw [hz] at h2; simp at h2
  | some pv =>
    rw [hz] at h2
    simp only [Option.map_some', Option.some.injEq] at h2
    obtain ⟨hz1, hz2⟩ := List.getElem?_zip_eq_some.mp hz
    have hp : pv.1 = p := by
      rw [h1] at hz1
      exact (Option.some.inj hz1).symm
    intro htv
    have htv' : pv.1.toVal = -1 := by rw [hp]; exact htv
    rw [← h2, if_pos htv']

theorem tryTaskOffer_some_shape (idx : NetworkIndex) (ask n : NetworkResource)
    (ipStr : String) (rng rng' : Rng) (out : NetworkResource)
    (e : Option String)
    (h : tryTaskOffer idx ask n ipStr rng = (rng', some out, e)) :
    ∃ d, out.dynamicPorts = buildDynPorts ask.dynamicPorts d := by
  simp only [tryTaskOffer] at h
  by_cases hbw : bwGet idx.usedBandwidth n.device + ask.mbits >
      bwGet idx.availBandwidth n.device
  · rw [if_pos hbw] at h
    exact absurd (congrArg (fun q => q.2.1) h) (by simp)
  · rw [if_neg hbw] at h
    cases hcr : checkAskReserved (alLookup idx.usedPorts ipStr)
        ask.reservedPorts with
    | some e2 =>
      rw [hcr] at h
      exact absurd (congrArg (fun q => q.2.1) h) (by simp)
    | none =>
      rw [hcr] at h
      rcases hst : getDynamicPortsStochastic (alLookup idx.usedPorts ipStr)
          idx.minDynamicPort idx.maxDynamicPort ask.reservedPorts
          ask.dynamicPorts.length rng with ⟨r1, rng1⟩
      rw [hst] at h
      cases r1 with
      | ok dynPorts =>
        simp only at h
        have h2 := congrArg (fun q => q.2.1) h
        simp only [Option.some.injEq] at h2
        exact ⟨dynPorts, by rw [← h2]⟩
      | error e1 =>
        simp only at h
        rcases hpr : getDynamicPortsPrecise (alLookup idx.usedPorts ipStr)
            idx.minDynamicPort idx.maxDynamicPort ask.reservedPorts
            ask.dynamicPorts.length rng1 with ⟨r2, rng2⟩
        rw [hpr] at h
        cases r2 with
        | ok dynPorts =>
          simp only at h
          have h2 := congrArg (fun q => q.2.1) h
          simp only [Option.some.injEq] at h2
          exact ⟨dynPorts, by rw [← h2]⟩
        | error e2 =>
          simp only at h
          exact absurd (congrArg (fun q => q.2.1) h) (by simp)

theorem ipLoop_some_shape (idx : NetworkIndex) (ask n : NetworkResource)
    (base : List Nat) (k : Nat) :
    ∀ (fuel : Nat) (ip : List Nat) (err : Option String) (rng rng' : Rng)
      (out : NetworkResource) (e : Option String),
      ipLoop idx ask n base k fuel ip err rng = (rng', some out, e) →
      ∃ d, out.dynamicPorts = buildDynPorts ask.dynamicPorts d := by
  intro fuel
  induction fuel with
  | zero =>
    intro ip err rng rng' out e h
    simp only [ipLoop] at h
    exact absurd (congrArg (fun q => q.2.1) h) (by simp)
  | succ fuel ih =>
    intro ip err rng rng' out e h
    simp only [ipLoop] at h
    by_cases hc : cidrContains base k ip = true
    · rw [if_pos hc] at h
      rcases ht : tryTaskOffer idx ask n (ipToString ip) rng
        with ⟨rngt, oo, et⟩
      rw [ht] at h
      cases oo with
      | some offer =>
        simp only at h
        have h2 := congrArg (fun q => q.2.1) h
        simp only [Option.some.injEq] at h2
        obtain ⟨d, hd⟩ := tryTaskOffer_some_shape idx ask n (ipToString ip)
          rng rngt offer et ht
        exact ⟨d, by rw [← h2]; exact hd⟩
      | none =>
        simp only at h
        exact ih (incIP ip) _ rngt rng' out e h
    · rw [if_neg hc] at h
      exact absurd (congrArg (fun q => q.2.1) h) (by simp)

theorem taskNetLoop_some_shape (idx : NetworkIndex) (ask : NetworkResource) :
    ∀ (nets : List NetworkResource) (err : Option String) (rng rng' : Rng)
      (out : NetworkResource) (e : Option String),
      taskNetLoop idx ask nets err rng = (rng', some out, e) →
      ∃ d, out.dynamicPorts = buildDynPorts ask.dynamicPorts d := by
  intro nets
  induction nets with
  | nil =>
    intro err rng rng' out e h
    simp only [taskNetLoop] at h
    exact absurd (congrArg (fun q => q.2.1) h) (by simp)
  | cons n rest ih =>
    intro err rng rng' out e h
    simp only [taskNetLoop] at h
    cases hp : parseCIDR n.cidr with
    | none =>
      rw [hp] at h
      exact ih err rng rng' out e h
    | some ipk =>
      obtain ⟨ip, k⟩ := ipk
      rw [hp] at h
      simp only at h
      rcases hl : ipLoop idx ask n (applyMask ip k) k
          (2 ^ (8 * ip.length - k)) (applyMask ip k) err rng
        with ⟨rngl, oo, el⟩
      rw [hl] at h
      cases oo with
      | some offer =>
        simp only at h
        have h2 := congrArg (fun q => q.2.1) h
        simp only [Option.some.injEq] at h2
        obtain ⟨d, hd⟩ := ipLoop_some_shape idx ask n _ _ _ _ err rng rngl
          offer el hl
        exact ⟨d, by rw [← h2]; exact hd⟩
      | none =>
        simp only at h
        exact ih el rngl rng' out e h

/-- C3 (amended): in every offer returned by `AssignPorts` and every
`NetworkResource` offer returned by `AssignTaskNetwork`, every emitted
mapping coming from a `DynamicPorts` entry whose ask port had `to == -1`
has its emitted `to` equal to its emitted `value`; mappings coming from
`ReservedPorts` entries copy the ask's `to` unchanged (no rewrite). -/
theorem c3_amended :
    (∀ (idx : NetworkIndex) (ask : NetworkResource) (rng : Rng)
      (offer : AllocatedPorts),
      (assignPorts idx ask rng).2.2 = Except.ok offer →
      ∀ (i : Nat) (p : Port) (m : AllocatedPortMapping),
        ask.dynamicPorts[i]? = some p →
        offer[ask.reservedPorts.length + i]? = some m →
        p.toVal = -1 → m.toVal = m.value) ∧
    (∀ (idx : NetworkIndex) (ask : NetworkResource) (rng : Rng)
      (out : NetworkResource),
      (assignTaskNetwork idx ask rng).2.1 = some out →
      ∀ (i : Nat) (p q : Port),
        ask.dynamicPorts[i]? = some p →
        out.dynamicPorts[i]? = some q →
        p.toVal = -1 → q.toVal = q.value) := by
  constructor
  · intro idx ask rng offer hok i p m hp hm htv
    unfold assignPorts at hok
    rcases hr : goReserved idx [] [] ask.reservedPorts with ⟨idx1, res1⟩
    rw [hr] at hok
    cases res1 with
    | error e => simp at hok
    | ok pr =>
      obtain ⟨ri, offer0⟩ := pr
      simp only at hok
      obtain ⟨hfld, hshape⟩ := goReserved_ok_spec ask.reservedPorts idx [] []
        idx1 _ hr
      obtain ⟨part0, hoff0, hfa0⟩ := hshape ri offer0 rfl
      rcases hd : goDynamic idx1 ri offer0 ask.dynamicPorts rng
        with ⟨idx2, rng2, res2⟩
      rw [hd] at hok
      simp only at hok
      obtain ⟨part, hoff, hfa⟩ := goDynamic_ok_spec idx.minDynamicPort
        idx.maxDynamicPort ask.dynamicPorts idx1 ri offer0 rng idx2 rng2 res2
        hfld.1 hfld.2 hd offer hok
      have hlen0 : offer0.length = ask.reservedPorts.length := by
        rw [hoff0]
        simp [hfa0.length_eq]
      rw [hoff] at hm
      rw [List.getElem?_append_right (by omega)] at hm
      rw [hlen0] at hm
      simp only [Nat.add_sub_cancel_left] at hm
      exact (forall₂_getElem? hfa i p m hp hm).2.1 htv
  · intro idx ask rng out hout i p q hp hq htv
    unfold assignTaskNetwork at hout
    rcases hl : taskNetLoop idx ask idx.taskNetworks
        (some "no networks available") rng with ⟨rngl, oo, el⟩
    rw [hl] at hout
    simp only at hout
    cases oo with
    | none => simp at hout
    | some offer =>
      have ho : offer = out := Option.some.inj hout
      subst ho
      obtain ⟨d, hd⟩ := taskNetLoop_some_shape idx ask idx.taskNetworks
        (some "no networks available") rng rngl offer el hl
      rw [hd] at hq
      exact buildDynPorts_getElem? ask.dynamicPorts d i p q hp hq htv

/-- Witness for C3 (amended) at a concrete input (spec scenario 6): the
dynamic mapping emitted for a `to == -1` ask has `to = value`. -/
theorem c3_amended_witness :
    ((assignPorts
        { hostNetworks := [("default",
            [{ aliasName := "default", address := "10.0.0.1" }])],
          minDynamicPort := 30000, maxDynamicPort := 30001 }
        { dynamicPorts := [{ label := "api", value := 0, toVal := -1, hostNetwork := "default" }] }
        ⟨fun _ => 0, 0⟩).2.2 =
      Except.ok [{ label := "api", value := 30000, toVal := 30000, hostIP := "10.0.0.1" }]) ∧
    (30000 : Int) = (30000 : Int) :=
  ⟨by decide,
    c3_amended.1
      { hostNetworks := [("default",
          [{ aliasName := "default", address := "10.0.0.1" }])],
        minDynamicPort := 30000, maxDynamicPort := 30001 }
      { dynamicPorts := [{ label := "api", value := 0, toVal := -1, hostNetwork := "default" }] }
      ⟨fun _ => 0, 0⟩
      [{ label := "api", value := 30000, toVal := 30000, hostIP := "10.0.0.1" }]
      (by decide) 0
      { label := "api", value := 0, toVal := -1, hostNetwork := "default" }
      { label := "api", value := 30000, toVal := 30000, hostIP := "10.0.0.1" }
      (by decide) (by decide) (by decide)⟩

/-! ## C8: reserved branch examines only the first address -/

/-- C8: for a reserved port whose alias has at least one address, only the
first address is ever examined (the loop body breaks or returns on its
first iteration); if the port value is in use on that first address the
whole `AssignPorts` call fails with "reserved port collision label=value";
if the alias has no addresses the call fails with
"no addresses available for <alias> network". -/
theorem c8_reserved_first_address (idx : NetworkIndex) (port : Port)
    (a : NodeNetworkAddress) (rest : List NodeNetworkAddress)
    (ask : NetworkResource) (ps : List Port) (rng : Rng)
    (hhd : ask.reservedPorts = port :: ps) :
    (assignReservedInner idx port (a :: rest) =
      assignReservedInner idx port [a]) ∧
    (0 ≤ port.value → port.value < (MaxValidPort : Int) →
      checkUsed idx a.address (goUint port.value) = true →
      assignReservedInner idx port (a :: rest) =
        ((getUsedPortsFor idx a.address).2,
          .hardErr ("reserved port collision " ++ port.label ++ "=" ++
            toString port.value))) ∧
    (∀ (e : String) (idx2 : NetworkIndex),
      alLookup idx.hostNetworks port.hostNetwork = some (a :: rest) →
      assignReservedInner idx port (a :: rest) = (idx2, .hardErr e) →
      assignPorts idx ask rng = (idx2, rng, .error e)) ∧
    ((alLookup idx.hostNetworks port.hostNetwork).getD [] = [] →
      assignPorts idx ask rng =
        (idx, rng, .error ("no addresses available for " ++
          port.hostNetwork ++ " network"))) := by
  refine ⟨rfl, ?_, ?_, ?_⟩
  · intro h0 hv hchk
    rcases hgu : getUsedPortsFor idx a.address with ⟨used, idxg⟩
    have hmem : goUint port.value ∈ used := by
      have h := getUsedPortsFor_fst idx a.address (goUint port.value)
      rw [hgu] at h
      simp only at h
      rw [hchk] at h
      exact of_decide_eq_true h
    simp only [assignReservedInner, hgu]
    rw [if_neg (by omega), if_pos hmem]
  · intro e idx2 hlook hinner
    unfold assignPorts
    rw [hhd]
    simp only [goReserved, hlook, Option.getD_some, hinner]
  · intro hlook
    unfold assignPorts
    rw [hhd]
    simp only [goReserved, hlook]
    rfl

/-- Witness for C8: with port 80 already in use on the alias's first
address, the whole call fails with the collision error. -/
theorem c8_reserved_first_address_witness :
    (0 : Int) ≤ 80 ∧
    assignPorts
        { hostNetworks := [("default", [{ aliasName := "default", address := "10.0.0.1" }])], usedPorts := [("10.0.0.1", {80})] }
        { reservedPorts := [{ label := "http", value := 80, toVal := 0, hostNetwork := "default" }] }
        ⟨fun _ => 0, 0⟩ =
      ((getUsedPortsFor
          { hostNetworks := [("default", [{ aliasName := "default", address := "10.0.0.1" }])], usedPorts := [("10.0.0.1", {80})] }
          "10.0.0.1").2,
        ⟨fun _ => 0, 0⟩, .error "reserved port collision http=80") := by
  refine ⟨by decide, ?_⟩
  have h := c8_reserved_first_address
    { hostNetworks := [("default", [{ aliasName := "default", address := "10.0.0.1" }])], usedPorts := [("10.0.0.1", {80})] }
    { label := "http", value := 80, toVal := 0, hostNetwork := "default" }
    { aliasName := "default", address := "10.0.0.1" } []
    { reservedPorts := [{ label := "http", value := 80, toVal := 0, hostNetwork := "default" }] }
    [] ⟨fun _ => 0, 0⟩ rfl
  exact h.2.2.1 "reserved port collision http=80" _ rfl
    (h.2.1 (by decide) (by decide) (by decide))

/-! ## C9: AssignTaskNetwork with no usable task network -/

theorem taskNetLoop_no_cidr (idx : NetworkIndex) (ask : NetworkResource) :
    ∀ (nets : List NetworkResource) (err : Option String) (rng : Rng),
      (∀ n ∈ nets, parseCIDR n.cidr = none) →
      taskNetLoop idx ask nets err rng = (rng, none, err) := by
  intro nets
  induction nets with
  | nil => intro err rng _; rfl
  | cons n rest ih =>
    intro err rng hall
    simp only [taskNetLoop, hall n (List.mem_cons_self n rest)]
    exact ih err rng (fun n2 h2 => hall n2 (List.mem_cons_of_mem n h2))

/-- C9: if no task network of the index has a CIDR that parses (in
particular when `TaskNetworks` is empty), `AssignTaskNetwork` returns a
nil offer and the error "no networks available" for every ask. -/
theorem c9_no_networks (idx : NetworkIndex) (ask : NetworkResource)
    (rng : Rng) (hall : ∀ n ∈ idx.taskNetworks, parseCIDR n.cidr = none) :
    assignTaskNetwork idx ask rng =
      (rng, none, some "no networks available") := by
  unfold assignTaskNetwork
  exact taskNetLoop_no_cidr idx ask idx.taskNetworks
    (some "no networks available") rng hall

/-- Witness for C9: an index with no task networks at all. -/
theorem c9_no_networks_witness :
    assignTaskNetwork ({} : NetworkIndex) {} ⟨fun _ => 0, 0⟩ =
      (⟨fun _ => 0, 0⟩, none, some "no networks available") :=
  c9_no_networks {} {} ⟨fun _ => 0, 0⟩ (by
    intro n hn
    exact absurd hn (List.not_mem_nil n))

/-! ## C10: invalid ports abort reservation without rollback -/

theorem addPortsLoop_invalid (pre : List Port) :
    ∀ (used : Bitmap) (collide : Bool) (reasons : List String) (bad : Port)
      (post : List Port),
      (∀ p ∈ pre, 0 ≤ p.value ∧ p.value < (MaxValidPort : Int)) →
      (bad.value < 0 ∨ bad.value ≥ (MaxValidPort : Int)) →
      addPortsLoop used collide reasons (pre ++ bad :: post) =
        ((addPortsLoop used collide reasons pre).1, true,
          ["invalid port " ++ toString bad.value], true) := by
  induction pre with
  | nil =>
    intro used collide reasons bad post _ hbad
    simp only [List.nil_append, addPortsLoop]
    rw [if_pos hbad]
  | cons p rest ih =>
    intro used collide reasons bad post hval hbad
    have hp := hval p (List.mem_cons_self p rest)
    have hnv : ¬(p.value < 0 ∨ p.value ≥ (MaxValidPort : Int)) := by omega
    simp only [List.cons_append, addPortsLoop, hnv, if_false]
    by_cases hc : goUint p.value ∈ used
    · simp only [hc, if_true]
      exact ih used true
        (reasons ++ ["port " ++ toString p.value ++ " already in use"]) bad
        post (fun q hq => hval q (List.mem_cons_of_mem p hq)) hbad
    · simp only [hc, if_false]
      exact ih (insert (goUint p.value) used) collide reasons bad post
        (fun q hq => hval q (List.mem_cons_of_mem p hq)) hbad

theorem addReservedPortsLoop_invalid (pre : AllocatedPorts) :
    ∀ (idx : NetworkIndex) (collide : Bool) (reasons : List String)
      (bad : AllocatedPortMapping) (post : AllocatedPorts),
      (∀ p ∈ pre, 0 ≤ p.value ∧ p.value < (MaxValidPort : Int)) →
      (bad.value < 0 ∨ bad.value ≥ (MaxValidPort : Int)) →
      addReservedPortsLoop idx collide reasons (pre ++ bad :: post) =
        ((getUsedPortsFor (addReservedPortsLoop idx collide reasons pre).1
            bad.hostIP).2,
          true, ["invalid port " ++ toString bad.value]) := by
  induction pre with
  | nil =>
    intro idx collide reasons bad post _ hbad
    simp only [List.nil_append, addReservedPortsLoop]
    rcases hgu : getUsedPortsFor idx bad.hostIP with ⟨used, idx1⟩
    simp only [hgu]
    rw [if_pos hbad]
  | cons p rest ih =>
    intro idx collide reasons bad post hval hbad
    have hp := hval p (List.mem_cons_self p rest)
    have hnv : ¬(p.value < 0 ∨ p.value ≥ (MaxValidPort : Int)) := by omega
    simp only [List.cons_append, addReservedPortsLoop]
    rcases hgu : getUsedPortsFor idx p.hostIP with ⟨used, idx1⟩
    simp only [hgu, hnv, if_false]
    by_cases hc : goUint p.value ∈ used
    · simp only [hc, if_true]
      exact ih idx1 true
        (reasons ++ ["port " ++ toString p.value ++ " already in use"]) bad
        post (fun q hq => hval q (List.mem_cons_of_mem p hq)) hbad
    · simp only [hc, if_false]
      exact ih _ collide reasons bad post
        (fun q hq => hval q (List.mem_cons_of_mem p hq)) hbad

/-- C10: when `AddReserved` (over `ReservedPorts ++ DynamicPorts`) or
`AddReservedPorts` reaches a port outside `[0, MaxValidPort)`, it returns
immediately with `collide = true` and the single reason
"invalid port <value>"; the ports before it in the list stay marked (no
rollback; for `AddReserved` the bandwidth line is also skipped) and the
ports after it are never processed. -/
theorem c10_invalid_port (idx : NetworkIndex) (n : NetworkResource)
    (pre post : List Port) (bad : Port) (preM postM : AllocatedPorts)
    (badM : AllocatedPortMapping)
    (hsplit : n.reservedPorts ++ n.dynamicPorts = pre ++ bad :: post)
    (hval : ∀ p ∈ pre, 0 ≤ p.value ∧ p.value < (MaxValidPort : Int))
    (hbad : bad.value < 0 ∨ bad.value ≥ (MaxValidPort : Int))
    (hvalM : ∀ p ∈ preM, 0 ≤ p.value ∧ p.value < (MaxValidPort : Int))
    (hbadM : badM.value < 0 ∨ badM.value ≥ (MaxValidPort : Int)) :
    (addReserved idx n =
      ({ (getUsedPortsFor idx n.ip).2 with
          usedPorts := alSet (getUsedPortsFor idx n.ip).2.usedPorts n.ip
            (addPortsLoop (getUsedPortsFor idx n.ip).1 false [] pre).1 },
        true, ["invalid port " ++ toString bad.value])) ∧
    (addReservedPorts idx (preM ++ badM :: postM) =
      ((getUsedPortsFor (addReservedPorts idx preM).1 badM.hostIP).2,
        true, ["invalid port " ++ toString badM.value])) := by
  constructor
  · unfold addReserved
    rw [hsplit]
    rcases hgu : getUsedPortsFor idx n.ip with ⟨used, idx1⟩
    simp only [hgu]
    rw [addPortsLoop_invalid pre used false [] bad post hval hbad]
    simp
  · unfold addReservedPorts
    exact addReservedPortsLoop_invalid preM idx false [] badM postM hvalM
      hbadM

/-- Witness for C10: reserving `[80@a, 70000@b, 90@c]` marks 80 on `a`,
aborts at the invalid 70000 with the single reason, and never touches
`c`. -/
theorem c10_invalid_port_witness :
    addReservedPorts ({} : NetworkIndex)
        [{ label := "l", value := 80, toVal := 0, hostIP := "a" },
          { label := "l", value := 70000, toVal := 0, hostIP := "b" },
          { label := "l", value := 90, toVal := 0, hostIP := "c" }] =
      ((getUsedPortsFor
          (addReservedPorts ({} : NetworkIndex)
            [{ label := "l", value := 80, toVal := 0, hostIP := "a" }]).1
          "b").2,
        true, ["invalid port 70000"]) :=
  (c10_invalid_port {}
    { reservedPorts := [{ label := "x", value := 70000, toVal := 0, hostNetwork := "" }] }
    [] []
    { label := "x", value := 70000, toVal := 0, hostNetwork := "" }
    [{ label := "l", value := 80, toVal := 0, hostIP := "a" }]
    [{ label := "l", value := 90, toVal := 0, hostIP := "c" }]
    { label := "l", value := 70000, toVal := 0, hostIP := "b" }
    (by decide) (by decide) (by decide) (by decide) (by decide)).2

/-! ## C6: reservations accumulate exactly and monotonically -/

theorem addPortsLoop_membership (ports : List Port) :
    ∀ (used : Bitmap) (collide : Bool) (reasons : List String),
      (∀ q ∈ ports, 0 ≤ q.value ∧ q.value < (MaxValidPort : Int)) →
      ∀ x, x ∈ (addPortsLoop used collide reasons ports).1 ↔
        x ∈ used ∨ ∃ q ∈ ports, goUint q.value = x := by
  induction ports with
  | nil => intro used collide reasons _ x; simp [addPortsLoop]
  | cons q rest ih =>
    intro used collide reasons hval x
    have hq := hval q (List.mem_cons_self q rest)
    have hnv : ¬(q.value < 0 ∨ q.value ≥ (MaxValidPort : Int)) := by omega
    simp only [addPortsLoop, hnv, if_false]
    by_cases hc : goUint q.value ∈ used
    · simp only [hc, if_true]
      rw [ih used true _ (fun w hw => hval w (List.mem_cons_of_mem q hw)) x]
      constructor
      · rintro (h | ⟨w, hw, hx⟩)
        · exact Or.inl h
        · exact Or.inr ⟨w, List.mem_cons_of_mem q hw, hx⟩
      · rintro (h | ⟨w, hw, hx⟩)
        · exact Or.inl h
        · rcases List.mem_cons.mp hw with rfl | hw'
          · exact Or.inl (hx ▸ hc)
          · exact Or.inr ⟨w, hw', hx⟩
    · simp only [hc, if_false]
      rw [ih (insert (goUint q.value) used) collide reasons
        (fun w hw => hval w (List.mem_cons_of_mem q hw)) x]
      simp only [Finset.mem_insert]
      constructor
      · rintro ((h | h) | ⟨w, hw, hx⟩)
        · exact Or.inr ⟨q, List.mem_cons_self q rest, h.symm⟩
        · exact Or.inl h
        · exact Or.inr ⟨w, List.mem_cons_of_mem q hw, hx⟩
      · rintro (h | ⟨w, hw, hx⟩)
        · exact Or.inl (Or.inr h)
        · rcases List.mem_cons.mp hw with rfl | hw'
          · exact Or.inl (Or.inl hx.symm)
          · exact Or.inr ⟨w, hw', hx⟩

theorem addPortsLoop_mono (ports : List Port) :
    ∀ (used : Bitmap) (collide : Bool) (reasons : List String) (x : Nat),
      x ∈ used → x ∈ (addPortsLoop used collide reasons ports).1 := by
  induction ports with
  | nil => intro used collide reasons x hx; exact hx
  | cons q rest ih =>
    intro used collide reasons x hx
    simp only [addPortsLoop]
    split_ifs with h1 h2
    · exact hx
    · exact ih used true _ x hx
    · exact ih _ collide reasons x (Finset.mem_insert_of_mem hx)

theorem valid_value_iff (q : Port) (p : Nat) (hq : 0 ≤ q.value ∧
    q.value < (MaxValidPort : Int)) :
    goUint q.value = p ↔ q.value = Int.ofNat p := by
  have hcap : ((MaxValidPort : Nat) : Int) < (2 : Int) ^ 64 := by
    norm_num [MaxValidPort]
  rw [goUint_eq_toNat hq.1 (lt_trans hq.2 hcap)]
  have h3 : Int.ofNat p = (p : Int) := rfl
  rw [h3]
  omega

theorem valid_valueM_iff (q : AllocatedPortMapping) (p : Nat)
    (hq : 0 ≤ q.value ∧ q.value < (MaxValidPort : Int)) :
    goUint q.value = p ↔ q.value = Int.ofNat p := by
  have hcap : ((MaxValidPort : Nat) : Int) < (2 : Int) ^ 64 := by
    norm_num [MaxValidPort]
  rw [goUint_eq_toNat hq.1 (lt_trans hq.2 hcap)]
  have h3 : Int.ofNat p = (p : Int) := rfl
  rw [h3]
  omega

theorem checkUsed_alSet (idx : NetworkIndex) (ip0 : String) (b : Bitmap)
    (ip : String) (p : Nat) :
    checkUsed { idx with usedPorts := alSet idx.usedPorts ip0 b } ip p =
      if ip = ip0 then decide (p ∈ b) else checkUsed idx ip p := by
  unfold checkUsed
  simp only [alLookup_alSet]
  by_cases h : ip = ip0
  · simp [h]
  · simp [h]

theorem addReserved_usedPorts (idx : NetworkIndex) (n : NetworkResource) :
    (addReserved idx n).1.usedPorts =
      alSet (getUsedPortsFor idx n.ip).2.usedPorts n.ip
        (addPortsLoop (getUsedPortsFor idx n.ip).1 false []
          (n.reservedPorts ++ n.dynamicPorts)).1 := by
  unfold addReserved
  rcases hgu : getUsedPortsFor idx n.ip with ⟨used, idx1⟩
  rcases hloop : addPortsLoop used false [] (n.reservedPorts ++ n.dynamicPorts)
    with ⟨used', c, rs, ab⟩
  simp only [hgu, hloop]
  split_ifs <;> rfl

theorem checkUsed_addReserved_iff (idx : NetworkIndex) (n : NetworkResource)
    (ip : String) (p : Nat)
    (hval : ∀ q ∈ n.reservedPorts ++ n.dynamicPorts,
      0 ≤ q.value ∧ q.value < (MaxValidPort : Int)) :
    (checkUsed (addReserved idx n).1 ip p = true ↔
      (checkUsed idx ip p = true ∨ opReserves ip p (.res n) = true)) := by
  have heq : checkUsed (addReserved idx n).1 ip p =
      checkUsed { (getUsedPortsFor idx n.ip).2 with
        usedPorts := alSet (getUsedPortsFor idx n.ip).2.usedPorts n.ip
          (addPortsLoop (getUsedPortsFor idx n.ip).1 false []
            (n.reservedPorts ++ n.dynamicPorts)).1 } ip p :=
    checkUsed_eq_of_usedPorts_eq (by rw [addReserved_usedPorts]) ip p
  rw [heq, checkUsed_alSet]
  have hmem := addPortsLoop_membership (n.reservedPorts ++ n.dynamicPorts)
    (getUsedPortsFor idx n.ip).1 false [] hval p
  have hfst := getUsedPortsFor_fst idx n.ip p
  by_cases hip : ip = n.ip
  · subst hip
    rw [if_pos rfl]
    have hop : opReserves n.ip p (.res n) = true ↔
        ∃ q ∈ n.reservedPorts ++ n.dynamicPorts, q.value = Int.ofNat p := by
      simp only [opReserves, Bool.and_eq_true, decide_eq_true_eq,
        List.any_eq_true]
      constructor
      · rintro ⟨_, q, hq, hv⟩
        exact ⟨q, hq, hv⟩
      · rintro ⟨q, hq, hv⟩
        exact ⟨trivial, q, hq, hv⟩
    constructor
    · intro h
      rcases hmem.mp (of_decide_eq_true h) with h2 | ⟨q, hq, hv⟩
      · left
        rw [← hfst]
        exact decide_eq_true h2
      · right
        exact hop.mpr ⟨q, hq, (valid_value_iff q p (hval q hq)).mp hv⟩
    · intro h
      apply decide_eq_true
      apply hmem.mpr
      rcases h with h | h
      · left
        rw [← hfst] at h
        exact of_decide_eq_true h
      · obtain ⟨q, hq, hv⟩ := hop.mp h
        exact Or.inr ⟨q, hq, (valid_value_iff q p (hval q hq)).mpr hv⟩
  · rw [if_neg hip]
    rw [checkUsed_getUsedPortsFor idx n.ip ip p]
    have hopf : opReserves ip p (.res n) = false := by
      simp only [opReserves, Bool.and_eq_false_iff]
      left
      rw [decide_eq_false_iff_not]
      exact fun hc => hip hc.symm
    rw [hopf]
    simp

theorem checkUsed_addReservedPortsLoop_iff (ports : AllocatedPorts) :
    ∀ (idx : NetworkIndex) (c : Bool) (rs : List String) (ip : String)
      (p : Nat),
      (∀ q ∈ ports, 0 ≤ q.value ∧ q.value < (MaxValidPort : Int)) →
      (checkUsed (addReservedPortsLoop idx c rs ports).1 ip p = true ↔
        (checkUsed idx ip p = true ∨
          ports.any (fun m => m.hostIP = ip && m.value = Int.ofNat p) =
            true)) := by
  induction ports with
  | nil =>
    intro idx c rs ip p _
    simp [addReservedPortsLoop]
  | cons q rest ih =>
    intro idx c rs ip p hval
    have hq := hval q (List.mem_cons_self q rest)
    have hnv : ¬(q.value < 0 ∨ q.value ≥ (MaxValidPort : Int)) := by omega
    simp only [addReservedPortsLoop]
    rcases hgu : getUsedPortsFor idx q.hostIP with ⟨used, idx1⟩
    simp only [hgu, hnv, if_false]
    have hpres : ∀ (ip' : String) (p' : Nat),
        checkUsed idx1 ip' p' = checkUsed idx ip' p' := by
      intro ip' p'
      have h := checkUsed_getUsedPortsFor idx q.hostIP ip' p'
      rw [hgu] at h
      exact h
    have hfst0 : ∀ x : Nat, decide (x ∈ used) = checkUsed idx q.hostIP x := by
      intro x
      have h := getUsedPortsFor_fst idx q.hostIP x
      rw [hgu] at h
      exact h
    have htail : ∀ w ∈ rest, 0 ≤ w.value ∧ w.value < (MaxValidPort : Int) :=
      fun w hw => hval w (List.mem_cons_of_mem q hw)
    have hany : (List.any (q :: rest)
        (fun m => m.hostIP = ip && m.value = Int.ofNat p) = true) ↔
        ((q.hostIP = ip ∧ q.value = Int.ofNat p) ∨
          rest.any (fun m => m.hostIP = ip && m.value = Int.ofNat p) = true) := by
      simp only [List.any_cons, Bool.or_eq_true, Bool.and_eq_true,
        decide_eq_true_eq]
    by_cases hc : goUint q.value ∈ used
    · simp only [hc, if_true]
      rw [ih idx1 true _ ip p htail, hpres ip p, hany]
      constructor
      · rintro (h | h)
        · exact Or.inl h
        · exact Or.inr (Or.inr h)
      · rintro (h | ⟨hipq, hvq⟩ | h)
        · exact Or.inl h
        · left
          have hup : goUint q.value = p := (valid_valueM_iff q p hq).mpr hvq
          rw [← hipq]
          rw [← hfst0 p]
          rw [← hup]
          exact decide_eq_true hc
        · exact Or.inr h
    · simp only [hc, if_false]
      rw [ih _ c rs ip p htail, checkUsed_alSet, hany]
      by_cases hip : ip = q.hostIP
      · rw [if_pos hip]
        subst hip
        constructor
        · rintro (h | h)
          · rcases Finset.mem_insert.mp (of_decide_eq_true h) with h2 | h2
            · exact Or.inr (Or.inl ⟨rfl, (valid_valueM_iff q p hq).mp h2.symm⟩)
            · left
              rw [← hfst0 p]
              exact decide_eq_true h2
          · exact Or.inr (Or.inr h)
        · rintro (h | ⟨_, hvq⟩ | h)
          · left
            apply decide_eq_true
            apply Finset.mem_insert_of_mem
            rw [← hfst0 p] at h
            exact of_decide_eq_true h
          · left
            apply decide_eq_true
            apply Finset.mem_insert.mpr
            exact Or.inl ((valid_valueM_iff q p hq).mpr hvq).symm
          · exact Or.inr h
      · rw [if_neg hip, hpres ip p]
        constructor
        · rintro (h | h)
          · exact Or.inl h
          · exact Or.inr (Or.inr h)
        · rintro (h | ⟨hipq, _⟩ | h)
          · exact Or.inl h
          · exact absurd hipq.symm hip
          · exact Or.inr h

theorem checkUsed_mono_addReserved (idx : NetworkIndex) (n : NetworkResource)
    (ip : String) (p : Nat) (h : checkUsed idx ip p = true) :
    checkUsed (addReserved idx n).1 ip p = true := by
  have heq : checkUsed (addReserved idx n).1 ip p =
      checkUsed { (getUsedPortsFor idx n.ip).2 with
        usedPorts := alSet (getUsedPortsFor idx n.ip).2.usedPorts n.ip
          (addPortsLoop (getUsedPortsFor idx n.ip).1 false []
            (n.reservedPorts ++ n.dynamicPorts)).1 } ip p :=
    checkUsed_eq_of_usedPorts_eq (by rw [addReserved_usedPorts]) ip p
  rw [heq, checkUsed_alSet]
  by_cases hip : ip = n.ip
  · rw [if_pos hip]
    apply decide_eq_true
    apply addPortsLoop_mono
    rw [hip] at h
    rw [← getUsedPortsFor_fst idx n.ip p] at h
    exact of_decide_eq_true h
  · rw [if_neg hip, checkUsed_getUsedPortsFor]
    exact h

theorem checkUsed_mono_addReservedPortsLoop (ports : AllocatedPorts) :
    ∀ (idx : NetworkIndex) (c : Bool) (rs : List String) (ip : String)
      (p : Nat), checkUsed idx ip p = true →
      checkUsed (addReservedPortsLoop idx c rs ports).1 ip p = true := by
  induction ports with
  | nil => intro idx c rs ip p h; exact h
  | cons q rest ih =>
    intro idx c rs ip p h
    simp only [addReservedPortsLoop]
    rcases hgu : getUsedPortsFor idx q.hostIP with ⟨used, idx1⟩
    simp only [hgu]
    have hpres : checkUsed idx1 ip p = checkUsed idx ip p := by
      have h2 := checkUsed_getUsedPortsFor idx q.hostIP ip p
      rw [hgu] at h2
      exact h2
    split_ifs with h1 h2
    · simp only
      rw [hpres]
      exact h
    · exact ih idx1 true _ ip p (by rw [hpres]; exact h)
    · apply ih _ c rs ip p
      rw [checkUsed_alSet]
      by_cases hip : ip = q.hostIP
      · rw [if_pos hip]
        apply decide_eq_true
        apply Finset.mem_insert_of_mem
        have hf := getUsedPortsFor_fst idx q.hostIP p
        rw [hgu] at hf
        simp only at hf
        rw [hip] at h
        rw [← hf] at h
        exact of_decide_eq_true h
      · rw [if_neg hip, hpres]
        exact h

theorem applyOp_mono (idx : NetworkIndex) (op : ResOp) (ip : String) (p : Nat)
    (h : checkUsed idx ip p = true) :
    checkUsed (applyOp idx op).1 ip p = true := by
  cases op with
  | res n => exact checkUsed_mono_addReserved idx n ip p h
  | resPorts ps => exact checkUsed_mono_addReservedPortsLoop ps idx false [] ip p h

theorem applyOps_mono (ops : List ResOp) :
    ∀ (idx : NetworkIndex) (ip : String) (p : Nat),
      checkUsed idx ip p = true → checkUsed (applyOps idx ops) ip p = true := by
  induction ops with
  | nil => intro idx ip p h; exact h
  | cons op rest ih =>
    intro idx ip p h
    exact ih (applyOp idx op).1 ip p (applyOp_mono idx op ip p h)

theorem applyOps_checkUsed (ops : List ResOp) :
    ∀ (idx : NetworkIndex) (ip : String) (p : Nat),
      (∀ op ∈ ops, opValidB op = true) →
      (checkUsed (applyOps idx ops) ip p = true ↔
        (checkUsed idx ip p = true ∨ opsReserve ops ip p = true)) := by
  induction ops with
  | nil =>
    intro idx ip p _
    simp [applyOps, opsReserve]
  | cons op rest ih =>
    intro idx ip p hval
    have hop := hval op (List.mem_cons_self op rest)
    have htail : ∀ w ∈ rest, opValidB w = true :=
      fun w hw => hval w (List.mem_cons_of_mem op hw)
    have hcons : (opsReserve (op :: rest) ip p = true) ↔
        (opReserves ip p op = true ∨ opsReserve rest ip p = true) := by
      simp only [opsReserve, List.any_cons, Bool.or_eq_true]
    show checkUsed (applyOps (applyOp idx op).1 rest) ip p = true ↔ _
    rw [ih (applyOp idx op).1 ip p htail, hcons]
    have hstep : checkUsed (applyOp idx op).1 ip p = true ↔
        (checkUsed idx ip p = true ∨ opReserves ip p op = true) := by
      cases op with
      | res n =>
        apply checkUsed_addReserved_iff
        intro q hq
        simp only [opValidB, List.all_eq_true] at hop
        have h2 := hop q hq
        simp only [Bool.and_eq_true, decide_eq_true_eq] at h2
        exact h2
      | resPorts ps =>
        have hv : ∀ q ∈ ps, 0 ≤ q.value ∧ q.value < (MaxValidPort : Int) := by
          intro q hq
          simp only [opValidB, List.all_eq_true] at hop
          have h2 := hop q hq
          simp only [Bool.and_eq_true, decide_eq_true_eq] at h2
          exact h2
        have h3 := checkUsed_addReservedPortsLoop_iff ps idx false [] ip p hv
        show checkUsed (addReservedPortsLoop idx false [] ps).1 ip p = true ↔ _
        rw [h3]
        simp only [opReserves]
    rw [hstep]
    tauto

/-- C6: starting from an index with empty `used_ports`, applying any
sequence of `AddReserved`/`AddReservedPorts` calls whose ports are all in
range and that report no collision leaves `used_ports[ip].check(p)` true
iff some call in the sequence reserved `(ip, p)`; moreover these
operations never clear a port. -/
theorem c6_reservation_union (idx : NetworkIndex) (ops : List ResOp)
    (ip : String) (p : Nat)
    (hempty : idx.usedPorts = [])
    (hnc : noCollisionsB idx ops = true)
    (hval : ∀ op ∈ ops, opValidB op = true) :
    (checkUsed (applyOps idx ops) ip p = opsReserve ops ip p) ∧
    (∀ (idx2 : NetworkIndex) (ops2 : List ResOp) (ip2 : String) (p2 : Nat),
      checkUsed idx2 ip2 p2 = true →
      checkUsed (applyOps idx2 ops2) ip2 p2 = true) := by
  refine ⟨?_, fun idx2 ops2 ip2 p2 h => applyOps_mono ops2 idx2 ip2 p2 h⟩
  have h0 : checkUsed idx ip p = false := by
    unfold checkUsed
    rw [hempty]
    rfl
  have hiff := applyOps_checkUsed ops idx ip p hval
  cases hcu : checkUsed (applyOps idx ops) ip p with
  | true =>
    rcases hiff.mp hcu with h | h
    · rw [h0] at h
      exact absurd h (by simp)
    · rw [h]
  | false =>
    cases hr : opsReserve ops ip p with
    | false => rfl
    | true =>
      have h2 := hiff.mpr (Or.inr hr)
      rw [hcu] at h2
      exact absurd h2 (by simp)

/-- Witness for C6: one `AddReservedPorts` call reserving port 80 on
`10.0.0.1` from an empty index. -/
theorem c6_reservation_union_witness :
    noCollisionsB {}
        [.resPorts [{ label := "http", value := 80, toVal := 0, hostIP := "10.0.0.1" }]] = true ∧
    checkUsed (applyOps ({} : NetworkIndex)
        [.resPorts [{ label := "http", value := 80, toVal := 0, hostIP := "10.0.0.1" }]])
        "10.0.0.1" 80 =
      opsReserve
        [.resPorts [{ label := "http", value := 80, toVal := 0, hostIP := "10.0.0.1" }]]
        "10.0.0.1" 80 :=
  ⟨by decide,
    (c6_reservation_union {}
      [.resPorts [{ label := "http", value := 80, toVal := 0, hostIP := "10.0.0.1" }]]
      "10.0.0.1" 80 rfl (by decide) (by decide)).1⟩

/-! ## C7: AddAllocs skips terminal allocations, never stops early, and
keeps only the most recent collision reason -/

theorem addAllocNetworks_acc (aid : String) (nets : List NetworkResource) :
    ∀ (idx : NetworkIndex) (c c' : Bool) (r r' : String),
      (addAllocNetworks idx c r aid nets).1 =
        (addAllocNetworks idx c' r' aid nets).1 ∧
      ((∃ s, (addAllocNetworks idx c r aid nets).2 = (true, s) ∧
          (addAllocNetworks idx c' r' aid nets).2 = (true, s)) ∨
        ((addAllocNetworks idx c r aid nets).2 = (c, r) ∧
          (addAllocNetworks idx c' r' aid nets).2 = (c', r'))) := by
  induction nets with
  | nil => intro idx c c' r r'; exact ⟨rfl, Or.inr ⟨rfl, rfl⟩⟩
  | cons n rest ih =>
    intro idx c c' r r'
    simp only [addAllocNetworks]
    rcases hr : addReserved idx n with ⟨idx1, cs, rs⟩
    simp only [hr]
    by_cases hcs : cs = true
    · simp only [hcs, if_true]
      obtain ⟨h1, h2⟩ := ih idx1 true true
        ("collision when reserving port for network " ++ n.ip ++
          " in alloc " ++ aid ++ ": " ++ reasonsToString rs)
        ("collision when reserving port for network " ++ n.ip ++
          " in alloc " ++ aid ++ ": " ++ reasonsToString rs)
      refine ⟨by trivial, ?_⟩
      rcases h2 with ⟨s, hs1, hs2⟩ | ⟨hu1, hu2⟩
      · exact Or.inl ⟨s, hs1, hs2⟩
      · exact Or.inl ⟨_, hu1, hu2⟩
    · simp only [hcs, if_false]
      exact ih idx1 c c' r r'

theorem addAllocTasks_acc (aid : String)
    (tasks : List (String × AllocatedTaskResources)) :
    ∀ (idx : NetworkIndex) (c c' : Bool) (r r' : String),
      (addAllocTasks idx c r aid tasks).1 =
        (addAllocTasks idx c' r' aid tasks).1 ∧
      ((∃ s, (addAllocTasks idx c r aid tasks).2 = (true, s) ∧
          (addAllocTasks idx c' r' aid tasks).2 = (true, s)) ∨
        ((addAllocTasks idx c r aid tasks).2 = (c, r) ∧
          (addAllocTasks idx c' r' aid tasks).2 = (c', r'))) := by
  induction tasks with
  | nil => intro idx c c' r r'; exact ⟨rfl, Or.inr ⟨rfl, rfl⟩⟩
  | cons t rest ih =>
    intro idx c c' r r'
    obtain ⟨task, resources⟩ := t
    simp only [addAllocTasks]
    cases hn : resources.networks with
    | nil => exact ih idx c c' r r'
    | cons n ns =>
      rcases hr : addReserved idx n with ⟨idx1, cs, rs⟩
      simp only [hr]
      by_cases hcs : cs = true
      · simp only [hcs, if_true]
        obtain ⟨h1, h2⟩ := ih idx1 true true
          ("collision when reserving port for network " ++ n.ip ++
            " in task " ++ task ++ " of alloc " ++ aid ++ ": " ++
            reasonsToString rs)
          ("collision when reserving port for network " ++ n.ip ++
            " in task " ++ task ++ " of alloc " ++ aid ++ ": " ++
            reasonsToString rs)
        refine ⟨by trivial, ?_⟩
        rcases h2 with ⟨s, hs1, hs2⟩ | ⟨hu1, hu2⟩
        · exact Or.inl ⟨s, hs1, hs2⟩
        · exact Or.inl ⟨_, hu1, hu2⟩
      · simp only [hcs, if_false]
        exact ih idx1 c c' r r'

theorem addAllocTaskResources_acc (aid : String)
    (tasks : List (String × Resources)) :
    ∀ (idx : NetworkIndex) (c c' : Bool) (r r' : String),
      (addAllocTaskResources idx c r aid tasks).1 =
        (addAllocTaskResources idx c' r' aid tasks).1 ∧
      ((∃ s, (addAllocTaskResources idx c r aid tasks).2 = (true, s) ∧
          (addAllocTaskResources idx c' r' aid tasks).2 = (true, s)) ∨
        ((addAllocTaskResources idx c r aid tasks).2 = (c, r) ∧
          (addAllocTaskResources idx c' r' aid tasks).2 = (c', r'))) := by
  induction tasks with
  | nil => intro idx c c' r r'; exact ⟨rfl, Or.inr ⟨rfl, rfl⟩⟩
  | cons t rest ih =>
    intro idx c c' r r'
    obtain ⟨task, resources⟩ := t
    simp only [addAllocTaskResources]
    cases hn : resources.networks with
    | nil => exact ih idx c c' r r'
    | cons n ns =>
      rcases hr : addReserved idx n with ⟨idx1, cs, rs⟩
      simp only [hr]
      by_cases hcs : cs = true
      · simp only [hcs, if_true]
        obtain ⟨h1, h2⟩ := ih idx1 true true
          ("(deprecated) collision when reserving port for network " ++
            n.ip ++ " in task " ++ task ++ " of alloc " ++ aid ++ ": " ++
            reasonsToString rs)
          ("(deprecated) collision when reserving port for network " ++
            n.ip ++ " in task " ++ task ++ " of alloc " ++ aid ++ ": " ++
            reasonsToString rs)
        refine ⟨by trivial, ?_⟩
        rcases h2 with ⟨s, hs1, hs2⟩ | ⟨hu1, hu2⟩
        · exact Or.inl ⟨s, hs1, hs2⟩
        · exact Or.inl ⟨_, hu1, hu2⟩
      · simp only [hcs, if_false]
        exact ih idx1 c c' r r'

theorem processAlloc_acc (alloc : Allocation) (idx : NetworkIndex)
    (c c' : Bool) (r r' : String) :
    (processAlloc idx c r alloc).1 = (processAlloc idx c' r' alloc).1 ∧
    ((∃ s, (processAlloc idx c r alloc).2 = (true, s) ∧
        (processAlloc idx c' r' alloc).2 = (true, s)) ∨
      ((processAlloc idx c r alloc).2 = (c, r) ∧
        (processAlloc idx c' r' alloc).2 = (c', r'))) := by
  unfold processAlloc
  cases har : alloc.allocatedResources with
  | none => exact addAllocTaskResources_acc alloc.id alloc.taskResources idx c c' r r'
  | some ar =>
    by_cases hps : ar.shared.ports ≠ []
    · simp only [if_pos hps]
      rcases hr : addReservedPorts idx ar.shared.ports with ⟨idx1, cs, rs⟩
      simp only [hr]
      by_cases hcs : cs = true
      · simp only [hcs, if_true]
        exact ⟨by trivial, Or.inl ⟨_, by trivial, by trivial⟩⟩
      · simp only [hcs, if_false]
        exact ⟨by trivial, Or.inr ⟨by trivial, by trivial⟩⟩
    · simp only [if_neg hps]
      rcases hn : addAllocNetworks idx c r alloc.id ar.shared.networks
        with ⟨idx1, c1, r1⟩
      rcases hn' : addAllocNetworks idx c' r' alloc.id ar.shared.networks
        with ⟨idx1', c1', r1'⟩
      simp only [hn, hn']
      have hnet := addAllocNetworks_acc alloc.id ar.shared.networks idx c c' r r'
      rw [hn, hn'] at hnet
      simp only at hnet
      obtain ⟨hst, hacc⟩ := hnet
      subst hst
      rcases hacc with ⟨s, hs1, hs2⟩ | ⟨hu1, hu2⟩
      · obtain ⟨hc1, hr1⟩ := Prod.mk.inj hs1
        obtain ⟨hc1', hr1'⟩ := Prod.mk.inj hs2
        have htk := addAllocTasks_acc alloc.id ar.tasks idx1 c1 c1' r1 r1'
        refine ⟨htk.1, ?_⟩
        rcases htk.2 with ⟨s2, h1, h2⟩ | ⟨h1, h2⟩
        · exact Or.inl ⟨s2, h1, h2⟩
        · exact Or.inl ⟨s, h1.trans (by rw [hc1, hr1]),
            h2.trans (by rw [hc1', hr1'])⟩
      · obtain ⟨hc1, hr1⟩ := Prod.mk.inj hu1
        obtain ⟨hc1', hr1'⟩ := Prod.mk.inj hu2
        have htk := addAllocTasks_acc alloc.id ar.tasks idx1 c1 c1' r1 r1'
        refine ⟨htk.1, ?_⟩
        rcases htk.2 with ⟨s2, h1, h2⟩ | ⟨h1, h2⟩
        · exact Or.inl ⟨s2, h1, h2⟩
        · exact Or.inr ⟨h1.trans (by rw [hc1, hr1]),
            h2.trans (by rw [hc1', hr1'])⟩

theorem addAllocsCore_last (allocs : List Allocation) :
    ∀ (idx : NetworkIndex) (c : Bool) (r : String),
      (addAllocsCore idx c r allocs).1 = allocsFoldState idx allocs ∧
      (addAllocsCore idx c r allocs).2 =
        (match lastCollisionReason idx allocs with
          | some s => (true, s)
          | none => (c, r)) := by
  induction allocs with
  | nil => intro idx c r; exact ⟨rfl, rfl⟩
  | cons a rest ih =>
    intro idx c r
    by_cases hterm : a.terminal = true
    · simp only [addAllocsCore, hterm, if_true, lastCollisionReason,
        allocsFoldState, List.foldl_cons]
      exact ih idx c r
    · have hbt : a.terminal = false := by
        revert hterm
        cases a.terminal <;> simp
      rcases hpn : processAlloc idx false "" a with ⟨idxn, cn, rn⟩
      have hstep : allocStep idx a = (idxn, if cn = true then some rn else none) := by
        unfold allocStep
        rw [hpn]
      rcases hpc : processAlloc idx c r a with ⟨idxc, cc, rc⟩
      have hacc := processAlloc_acc a idx c false r ""
      rw [hpc, hpn] at hacc
      simp only at hacc
      obtain ⟨hst, hdich⟩ := hacc
      subst hst
      have hfold : allocsFoldState idx (a :: rest) = allocsFoldState idxc rest := by
        unfold allocsFoldState
        simp [hbt, hstep]
      have hlast : lastCollisionReason idx (a :: rest) =
          (match lastCollisionReason idxc rest with
            | some s => some s
            | none => (if cn = true then some rn else none)) := by
        simp only [lastCollisionReason, hbt, Bool.false_eq_true, if_false,
          hstep]
      simp only [addAllocsCore, hbt, Bool.false_eq_true, if_false, hpc]
      rw [hfold, hlast]
      obtain ⟨ih1, ih2⟩ := ih idxc cc rc
      refine ⟨ih1, ?_⟩
      rw [ih2]
      cases hl : lastCollisionReason idxc rest with
      | some s => simp
      | none =>
        rcases hdich with ⟨s, h1, h2⟩ | ⟨h1, h2⟩
        · obtain ⟨hcc, hrc⟩ := Prod.mk.inj h1
          obtain ⟨hcn, hrn⟩ := Prod.mk.inj h2
          rw [hcc, hrc, hcn, hrn]
          simp
        · obtain ⟨hcc, hrc⟩ := Prod.mk.inj h1
          obtain ⟨hcn, hrn⟩ := Prod.mk.inj h2
          rw [hcc, hrc, hcn]
          simp

/-- C7: `AddAllocs` skips terminal allocations (they contribute nothing),
never stops early (the resulting state is the fold over every non-terminal
allocation), and returns `collide = true` together with a reason derived
from the most recent colliding allocation only. -/
theorem c7_addAllocs (idx : NetworkIndex) (c : Bool) (r : String)
    (a : Allocation) (rest allocs : List Allocation)
    (hterm : a.terminal = true) :
    (addAllocsCore idx c r (a :: rest) = addAllocsCore idx c r rest) ∧
    ((addAllocs idx allocs).1 = allocsFoldState idx allocs) ∧
    ((addAllocs idx allocs).2.1 = (lastCollisionReason idx allocs).isSome) ∧
    ((addAllocs idx allocs).2.2 = (lastCollisionReason idx allocs).getD "") := by
  obtain ⟨h1, h2⟩ := addAllocsCore_last allocs idx false ""
  refine ⟨by simp [addAllocsCore, hterm], h1, ?_, ?_⟩
  · show (addAllocsCore idx false "" allocs).2.1 = _
    rw [h2]
    cases lastCollisionReason idx allocs with
    | some s => rfl
    | none => rfl
  · show (addAllocsCore idx false "" allocs).2.2 = _
    rw [h2]
    cases lastCollisionReason idx allocs with
    | some s => rfl
    | none => rfl

/-- Witness for C7: a terminal allocation contributes nothing. -/
theorem c7_addAllocs_witness :
    ({ id := "t", terminal := true } : Allocation).terminal = true ∧
    addAllocsCore ({} : NetworkIndex) false ""
        [{ id := "t", terminal := true }] =
      addAllocsCore ({} : NetworkIndex) false "" [] :=
  ⟨rfl, (c7_addAllocs {} false "" { id := "t", terminal := true } [] [] rfl).1⟩

/-! ## C4: SetNode idempotence after clearing used_ports -/

theorem getUsedPortsFor_congr (idx idx' : NetworkIndex) (ip : String)
    (h : idx.usedPorts = idx'.usedPorts) :
    (getUsedPortsFor idx ip).1 = (getUsedPortsFor idx' ip).1 ∧
    (getUsedPortsFor idx ip).2.usedPorts =
      (getUsedPortsFor idx' ip).2.usedPorts := by
  unfold getUsedPortsFor
  rw [h]
  cases alLookup idx'.usedPorts ip with
  | none => simp [h]
  | some b => simp [h]

theorem legacyReservedLoop_congr (nets : List NetworkResource) :
    ∀ (idx idx' : NetworkIndex) (g : List Nat),
      idx.usedPorts = idx'.usedPorts →
      (legacyReservedLoop idx g nets).1.usedPorts =
        (legacyReservedLoop idx' g nets).1.usedPorts ∧
      (legacyReservedLoop idx g nets).2 = (legacyReservedLoop idx' g nets).2 := by
  induction nets with
  | nil => intro idx idx' g h; exact ⟨h, rfl⟩
  | cons n rest ih =>
    intro idx idx' g h
    simp only [legacyReservedLoop]
    rcases hgu : getUsedPortsFor idx n.ip with ⟨used, idx1⟩
    rcases hgu' : getUsedPortsFor idx' n.ip with ⟨used', idx1'⟩
    have hc := getUsedPortsFor_congr idx idx' n.ip h
    rw [hgu, hgu'] at hc
    simp only at hc
    obtain ⟨hu, hup⟩ := hc
    subst hu
    rcases hl : legacyPortsLoop used g (n.reservedPorts ++ n.dynamicPorts)
      with ⟨used2, g2, err2⟩
    cases err2 with
    | some e => exact ⟨by simp [hup], rfl⟩
    | none =>
      refine ih _ _ g2 ?_
      split_ifs <;> simp [hup]

theorem markTaskNetworks_congr (nets : List NetworkResource) :
    ∀ (idx idx' : NetworkIndex) (g : List Nat),
      idx.usedPorts = idx'.usedPorts →
      (markTaskNetworks idx g nets).usedPorts =
        (markTaskNetworks idx' g nets).usedPorts := by
  induction nets with
  | nil => intro idx idx' g h; exact h
  | cons n rest ih =>
    intro idx idx' g h
    simp only [markTaskNetworks]
    by_cases hd : n.device ≠ ""
    · simp only [if_pos hd]
      rcases hgu : getUsedPortsFor { idx with
          taskNetworks := idx.taskNetworks ++ [n],
          availBandwidth := alSet idx.availBandwidth n.device n.mbits } n.ip
        with ⟨used, idx2⟩
      rcases hgu' : getUsedPortsFor { idx' with
          taskNetworks := idx'.taskNetworks ++ [n],
          availBandwidth := alSet idx'.availBandwidth n.device n.mbits } n.ip
        with ⟨used', idx2'⟩
      have hc := getUsedPortsFor_congr { idx with
          taskNetworks := idx.taskNetworks ++ [n],
          availBandwidth := alSet idx.availBandwidth n.device n.mbits }
        { idx' with
          taskNetworks := idx'.taskNetworks ++ [n],
          availBandwidth := alSet idx'.availBandwidth n.device n.mbits }
        n.ip h
      rw [hgu, hgu'] at hc
      simp only at hc
      obtain ⟨hu, hup⟩ := hc
      subst hu
      exact ih _ _ g (by simp [hup])
    · simp only [if_neg hd]
      exact ih _ _ g h

theorem addressesLoop_congr (addrs : List NodeNetworkAddress) :
    ∀ (idx idx' : NetworkIndex) (g : List Nat),
      idx.usedPorts = idx'.usedPorts →
      (addressesLoop idx g addrs).1.usedPorts =
        (addressesLoop idx' g addrs).1.usedPorts ∧
      (addressesLoop idx g addrs).2 = (addressesLoop idx' g addrs).2 := by
  induction addrs with
  | nil => intro idx idx' g h; exact ⟨h, rfl⟩
  | cons a rest ih =>
    intro idx idx' g h
    simp only [addressesLoop]
    rcases hgu : getUsedPortsFor { idx with
        hostNetworks := alSet idx.hostNetworks a.aliasName
          ((alLookup idx.hostNetworks a.aliasName).getD [] ++ [a]) } a.address
      with ⟨used, idx2⟩
    rcases hgu' : getUsedPortsFor { idx' with
        hostNetworks := alSet idx'.hostNetworks a.aliasName
          ((alLookup idx'.hostNetworks a.aliasName).getD [] ++ [a]) } a.address
      with ⟨used', idx2'⟩
    have hc := getUsedPortsFor_congr { idx with
        hostNetworks := alSet idx.hostNetworks a.aliasName
          ((alLookup idx.hostNetworks a.aliasName).getD [] ++ [a]) }
      { idx' with
        hostNetworks := alSet idx'.hostNetworks a.aliasName
          ((alLookup idx'.hostNetworks a.aliasName).getD [] ++ [a]) }
      a.address h
    rw [hgu, hgu'] at hc
    simp only at hc
    obtain ⟨hu, hup⟩ := hc
    subst hu
    by_cases hr : a.reservedPorts ≠ ""
    · simp only [if_pos hr]
      rcases hp : parsePortRanges a.reservedPorts with e | rp
      · exact ⟨by simp [hup], rfl⟩
      · exact ih _ _ g (by simp [hup])
    · simp only [if_neg hr]
      exact ih _ _ g (by simp [hup])

theorem nodeNetworksLoop_congr (nns : List NodeNetworkResource) :
    ∀ (idx idx' : NetworkIndex) (g : List Nat),
      idx.usedPorts = idx'.usedPorts →
      (nodeNetworksLoop idx g nns).1.usedPorts =
        (nodeNetworksLoop idx' g nns).1.usedPorts ∧
      (nodeNetworksLoop idx g nns).2 = (nodeNetworksLoop idx' g nns).2 := by
  induction nns with
  | nil => intro idx idx' g h; exact ⟨h, rfl⟩
  | cons n rest ih =>
    intro idx idx' g h
    simp only [nodeNetworksLoop]
    rcases ha : addressesLoop idx g n.addresses with ⟨idx1, err⟩
    rcases ha' : addressesLoop idx' g n.addresses with ⟨idx1', err'⟩
    have hc := addressesLoop_congr n.addresses idx idx' g h
    rw [ha, ha'] at hc
    simp only at hc
    obtain ⟨hup, herr⟩ := hc
    subst herr
    cases err with
    | some e => exact ⟨hup, rfl⟩
    | none => exact ih _ _ g hup

theorem setNodeRest_congr (idx idx' : NetworkIndex) (g : List Nat)
    (tn : List NetworkResource) (node : Node)
    (h : idx.usedPorts = idx'.usedPorts) :
    (setNodeRest idx g tn node).1.usedPorts =
      (setNodeRest idx' g tn node).1.usedPorts ∧
    (setNodeRest idx g tn node).2 = (setNodeRest idx' g tn node).2 := by
  simp only [setNodeRest]
  have hmark := markTaskNetworks_congr tn idx idx' g h
  rcases hn : nodeNetworksLoop (markTaskNetworks idx g tn) g
      (match node.nodeResources with
        | some nr => nr.nodeNetworks
        | none => []) with ⟨idx3, err⟩
  rcases hn' : nodeNetworksLoop (markTaskNetworks idx' g tn) g
      (match node.nodeResources with
        | some nr => nr.nodeNetworks
        | none => []) with ⟨idx3', err'⟩
  have hc := nodeNetworksLoop_congr
    (match node.nodeResources with
      | some nr => nr.nodeNetworks
      | none => [])
    (markTaskNetworks idx g tn) (markTaskNetworks idx' g tn) g hmark
  rw [hn, hn'] at hc
  simp only at hc
  obtain ⟨hup, herr⟩ := hc
  subst herr
  cases err with
  | some e => exact ⟨hup, rfl⟩
  | none =>
    cases node.nodeResources with
    | none => exact ⟨hup, rfl⟩
    | some nr =>
      refine ⟨?_, rfl⟩
      simp only
      split_ifs <;> simp [hup]

theorem setNodeStep2_congr (idx idx' : NetworkIndex) (node : Node)
    (h : idx.usedPorts = idx'.usedPorts) :
    (setNodeStep2 idx node).1.usedPorts = (setNodeStep2 idx' node).1.usedPorts ∧
    (setNodeStep2 idx node).2 = (setNodeStep2 idx' node).2 := by
  simp only [setNodeStep2]
  have hleg :
      (match node.reserved with
        | some res => legacyReservedLoop idx [] res.networks
        | none => (idx, [], none)).1.usedPorts =
        (match node.reserved with
          | some res => legacyReservedLoop idx' [] res.networks
          | none => (idx', [], none)).1.usedPorts ∧
      (match node.reserved with
        | some res => legacyReservedLoop idx [] res.networks
        | none => (idx, [], none)).2 =
        (match node.reserved with
          | some res => legacyReservedLoop idx' [] res.networks
          | none => (idx', [], none)).2 := by
    cases node.reserved with
    | none => exact ⟨h, rfl⟩
    | some res => exact legacyReservedLoop_congr res.networks idx idx' [] h
  rcases hrr : node.reservedResources with _ | rr
  · exact hleg
  · by_cases hne : rr.networks.reservedHostPorts ≠ ""
    · simp only [if_pos hne]
      rcases hp : parsePortRanges rr.networks.reservedHostPorts with e | rp
      · exact ⟨h, rfl⟩
      · exact ⟨h, rfl⟩
    · simp only [if_neg hne]
      exact hleg

theorem setNode_congr (idx idx' : NetworkIndex) (node : Node)
    (h : idx.usedPorts = idx'.usedPorts) :
    (setNode idx node).1.usedPorts = (setNode idx' node).1.usedPorts ∧
    (setNode idx node).2 = (setNode idx' node).2 := by
  simp only [setNode]
  rcases hs : setNodeStep2 idx node with ⟨idx1, g1, err1⟩
  rcases hs' : setNodeStep2 idx' node with ⟨idx1', g1', err1'⟩
  have hc := setNodeStep2_congr idx idx' node h
  rw [hs, hs'] at hc
  simp only at hc
  obtain ⟨hup, hge⟩ := hc
  obtain ⟨hg, he⟩ := Prod.mk.inj hge
  subst hg
  subst he
  cases err1 with
  | some e => exact ⟨hup, rfl⟩
  | none => exact setNodeRest_congr idx1 idx1' g1 _ node hup

/-- C4: running `SetNode` twice on the same node description, starting
from an index with empty `used_ports` and clearing `used_ports` between
the two runs, produces equal `used_ports` contents (and the same error,
if any). -/
theorem c4_setNode_idempotent (idx : NetworkIndex) (node : Node)
    (hempty : idx.usedPorts = []) :
    (setNode (clearUsedPorts (setNode idx node).1) node).1.usedPorts =
      (setNode idx node).1.usedPorts ∧
    (setNode (clearUsedPorts (setNode idx node).1) node).2 =
      (setNode idx node).2 :=
  setNode_congr (clearUsedPorts (setNode idx node).1) idx node
    (by simp [clearUsedPorts, hempty])

/-- Witness for C4 at a concrete node with one host-network address. -/
theorem c4_setNode_idempotent_witness :
    (({} : NetworkIndex).usedPorts = []) ∧
    (setNode (clearUsedPorts (setNode {}
        { nodeResources := some { nodeNetworks :=
            [{ addresses := [{ aliasName := "default", address := "10.0.0.1" }] }] } }).1)
        { nodeResources := some { nodeNetworks :=
            [{ addresses := [{ aliasName := "default", address := "10.0.0.1" }] }] } }).1.usedPorts =
      (setNode ({} : NetworkIndex)
        { nodeResources := some { nodeNetworks :=
            [{ addresses := [{ aliasName := "default", address := "10.0.0.1" }] }] } }).1.usedPorts :=
  ⟨rfl,
    (c4_setNode_idempotent {}
      { nodeResources := some { nodeNetworks :=
          [{ addresses := [{ aliasName := "default", address := "10.0.0.1" }] }] } }
      rfl).1⟩


end Nomad
